import Mathlib

/-!
# CHIP-8 interpreter (src/chip8.c): shallow embedding

The C program keeps the whole machine in file-scope variables.  Here they are the
fields of one record, `State`, passed explicitly through every operation.

* Fixed-width integers are natural numbers; every store into a `uint8_t` or
  `uint16_t` object goes through `u8` / `u16` (reduction modulo `2^8` / `2^16`).
* Arrays are total functions from indices; the meaningful indices are those below
  the array length of the C declaration.  An access outside that length is
  undefined behaviour in C and is reported here as `Fault.outOfBounds`.
* `exit(1)` is the result `Except.error` with the fault that names the diagnostic.
* raylib calls (`GetRandomValue`, `IsKeyPressed`, `IsKeyReleased`) are inputs
  supplied by a `Host` record; `IsKeyDown` and the content of the ROM file are
  arguments of `keypad_state` and `load_rom`.
* The `float` accumulators of `main` are values of a parameter type with the three
  operations the loop uses (`FloatOps`); the loops of `main` carry a bound on their
  number of iterations.
-/

namespace CHIP8

/-! ## Constants (chip8.c lines 11-20, 85, 105) -/

def WIDTH : Nat := 64
def HEIGHT : Nat := 32
def MEMORY_SIZE : Nat := 4096
def STACK_SIZE : Nat := 16
def NUM_REG : Nat := 16
def NUM_KEY : Nat := 16
def FONTSET_SIZE : Nat := 80
def FONTSET_START_ADDRESS : Nat := 0x50

/-- Conversion to `uint8_t`. -/
def u8 (n : Nat) : Nat := n % 256

/-- Conversion to `uint16_t`. -/
def u16 (n : Nat) : Nat := n % 65536

/-- The `int` difference `a - b` converted to `uint8_t`. -/
def u8sub (a b : Nat) : Nat := (((a : Int) - (b : Int)) % 256).toNat

/-- The `int` difference `a - b` converted to `uint16_t`. -/
def u16sub (a b : Nat) : Nat := (((a : Int) - (b : Int)) % 65536).toNat

/-- Array store `a[i] = v`. -/
def set {α : Type} (a : Nat → α) (i : Nat) (v : α) : Nat → α :=
  fun j => if j = i then v else a j

/-- Two-dimensional array store `d[r][c] = v`. -/
def set2 {α : Type} (d : Nat → Nat → α) (r c : Nat) (v : α) : Nat → Nat → α :=
  fun r1 c1 => if r1 = r ∧ c1 = c then v else d r1 c1

/-! ## Machine state (chip8.c lines 22-39) -/

/-- The file-scope variables of chip8.c. -/
structure State where
  memory : Nat → Nat
  V : Nat → Nat
  I : Nat
  pc : Nat
  stack : Nat → Nat
  sp : Nat
  delay_timer : Nat
  sound_timer : Nat
  display : Nat → Nat → Bool
  keypad : Nat → Nat
  uses_vy : Bool
  new_jump : Bool
  modify_I : Bool

/-- Ways in which a step ends without a next state: the three `exit(1)` paths of
`stack_push`, `stack_pop` and `fetch`, and an array access outside the array
(undefined behaviour in C). -/
inductive Fault where
  | stackOverflow
  | stackUnderflow
  | pcOutOfBounds
  | outOfBounds
  deriving DecidableEq, Repr

/-- Values the raylib host hands to one CPU step. -/
structure Host where
  random : Nat
  IsKeyPressed : Nat → Bool
  IsKeyReleased : Nat → Bool

/-- Every variable holds a value of its C type. -/
structure WF (s : State) : Prop where
  memory_u8 : ∀ a, s.memory a < 256
  V_u8 : ∀ i, s.V i < 256
  I_u16 : s.I < 65536
  pc_u16 : s.pc < 65536
  stack_u16 : ∀ i, s.stack i < 65536
  sp_u8 : s.sp < 256
  delay_u8 : s.delay_timer < 256
  sound_u8 : s.sound_timer < 256
  keypad_u8 : ∀ k, s.keypad k < 256

/-- chip8.c lines 41-60 (`SetRandomSeed` only concerns the host). -/
def chip8_init : State where
  memory := fun _ => 0
  V := fun _ => 0
  stack := fun _ => 0
  display := fun _ _ => false
  keypad := fun _ => 0
  I := 0
  pc := 0x200
  sp := 0
  delay_timer := 0
  sound_timer := 0
  uses_vy := false
  new_jump := false
  modify_I := false

/-- chip8.c lines 62-64. -/
def clear_screen (s : State) : State :=
  { s with display := fun _ _ => false }

/-- chip8.c lines 87-104. -/
def chip8_fontset : List Nat :=
  [0xF0, 0x90, 0x90, 0x90, 0xF0,
   0x20, 0x60, 0x20, 0x20, 0x70,
   0xF0, 0x10, 0xF0, 0x80, 0xF0,
   0xF0, 0x10, 0xF0, 0x10, 0xF0,
   0x90, 0x90, 0xF0, 0x10, 0x10,
   0xF0, 0x80, 0xF0, 0x10, 0xF0,
   0xF0, 0x80, 0xF0, 0x90, 0xF0,
   0xF0, 0x10, 0x20, 0x40, 0x40,
   0xF0, 0x90, 0xF0, 0x90, 0xF0,
   0xF0, 0x90, 0xF0, 0x10, 0xF0,
   0xF0, 0x90, 0xF0, 0x90, 0x90,
   0xE0, 0x90, 0xE0, 0x90, 0xE0,
   0xF0, 0x80, 0x80, 0x80, 0xF0,
   0xE0, 0x90, 0x90, 0x90, 0xE0,
   0xF0, 0x80, 0xF0, 0x80, 0xF0,
   0xF0, 0x80, 0xF0, 0x80, 0x80]

/-! ## Memory operations (chip8.c lines 129-161) -/

/-- chip8.c lines 133-139: `write(addr, value)`; the parameters are converted to
`uint16_t` and `uint8_t` at the call. -/
def write (s : State) (addr value : Nat) : Bool × State :=
  if u16 addr ≥ MEMORY_SIZE then (false, s)
  else (true, { s with memory := set s.memory (u16 addr) (u8 value) })

/-- chip8.c lines 146-148: the loop of `write_block`, entered at index `i` with the
elements `data[i], data[i+1], ...` still to be written. -/
def write_block_loop (start : Nat) : List Nat → Nat → State → State
  | [], _, s => s
  | b :: rest, i, s => write_block_loop start rest (i + 1) (write s (start + i) b).2

/-- chip8.c lines 141-150: `write_block(start, data, size)` with `size` the length of
`data`; `start` is a `uint16_t`. -/
def write_block (s : State) (start : Nat) (data : List Nat) : Bool × State :=
  if start ≥ MEMORY_SIZE ∨ data.length ≥ MEMORY_SIZE - start then (false, s)
  else (true, write_block_loop start data 0 s)

/-- chip8.c lines 155-161. -/
def load_fontset (s : State) : Bool × State :=
  write_block s FONTSET_START_ADDRESS chip8_fontset

/-! ## Stack and fetch (chip8.c lines 166-194) -/

/-- chip8.c lines 166-174. -/
def stack_push (s : State) (instruction : Nat) : Except Fault State :=
  if s.sp ≥ STACK_SIZE then .error .stackOverflow
  else .ok { s with stack := set s.stack s.sp (u16 instruction), sp := u8 (s.sp + 1) }

/-- chip8.c lines 176-184: the popped value and the state with `sp` decremented.  A
slot index `sp - 1` outside `stack` (possible only when `sp > 16`) is an access
outside the array. -/
def stack_pop (s : State) : Except Fault (Nat × State) :=
  if s.sp = 0 then .error .stackUnderflow
  else if u8 (s.sp - 1) ≥ STACK_SIZE then .error .outOfBounds
  else .ok (s.stack (u8 (s.sp - 1)), { s with sp := u8 (s.sp - 1) })

/-- chip8.c lines 186-194: the fetched instruction word and the state with `pc`
advanced. -/
def fetch (s : State) : Except Fault (Nat × State) :=
  if s.pc + 1 ≥ MEMORY_SIZE then .error .pcOutOfBounds
  else
    .ok (u16 ((s.memory s.pc <<< 8) ||| s.memory (s.pc + 1)), { s with pc := u16 (s.pc + 2) })

/-! ## Instruction bodies (chip8.c lines 222-505)

Each `case` of the dispatch in `decode_and_execute` is a function of its own, named
after the instruction; `execute` below is the dispatch itself. -/

/-- Register store `V[i] = v` (conversion to `uint8_t` included). -/
def setV (s : State) (i v : Nat) : State :=
  { s with V := set s.V i (u8 v) }

/-- The statement `pc += 2` of the skip instructions. -/
def skip (s : State) : State :=
  { s with pc := u16 (s.pc + 2) }

/-- chip8.c lines 234-238 (2NNN). -/
def op_2NNN (s : State) (NNN : Nat) : Except Fault State :=
  match stack_push s s.pc with
  | .error e => .error e
  | .ok s1 => .ok { s1 with pc := u16 NNN }

/-- chip8.c lines 240-242 (`case 0x0000`). -/
def op_00EE (s : State) : Except Fault State :=
  match stack_pop s with
  | .error e => .error e
  | .ok (addr, s1) => .ok { s1 with pc := u16 addr }

/-- chip8.c lines 287-292 (8XY4). -/
def op_8XY4 (s : State) (X Y : Nat) : State :=
  let sum := u16 (s.V X + s.V Y)
  let s1 := setV s X (sum &&& 0xFF)
  setV s1 0xF (if sum > 255 then 1 else 0)

/-- chip8.c lines 294-301 (8XY5). -/
def op_8XY5 (s : State) (X Y : Nat) : State :=
  let vx := s.V X
  let vy := s.V Y
  let s1 := setV s X (u8sub (s.V X) (s.V Y))
  setV s1 0xF (if vx ≥ vy then 1 else 0)

/-- chip8.c lines 303-307 (8XY7): the comparison reads `V[Y]` and `V[X]` after the
assignment to `V[X]`. -/
def op_8XY7 (s : State) (X Y : Nat) : State :=
  let s1 := setV s X (u8sub (s.V Y) (s.V X))
  setV s1 0xF (if s1.V Y ≥ s1.V X then 1 else 0)

/-- chip8.c lines 309-321 (8XY6). -/
def op_8XY6 (s : State) (X Y : Nat) : State :=
  let value := if s.uses_vy then s.V Y else s.V X
  let lsb := u8 (value &&& 0x01)
  let result := u8 (value >>> 1)
  let s1 := setV s X result
  setV s1 0xF lsb

/-- chip8.c lines 323-335 (8XYE). -/
def op_8XYE (s : State) (X Y : Nat) : State :=
  let value := if s.uses_vy then s.V Y else s.V X
  let msb := u8 ((value &&& 0x80) >>> 7)
  let result := u8 (value <<< 1)
  let s1 := setV s X result
  setV s1 0xF msb

/-- chip8.c lines 268-338: the inner `switch (N)` of the `0x8000` group; it has no
`default`. -/
def op_8XYN (s : State) (X Y N : Nat) : State :=
  if N = 0x0 then setV s X (s.V Y)
  else if N = 0x1 then setV s X (s.V X ||| s.V Y)
  else if N = 0x2 then setV s X (s.V X &&& s.V Y)
  else if N = 0x3 then setV s X (s.V X ^^^ s.V Y)
  else if N = 0x4 then op_8XY4 s X Y
  else if N = 0x5 then op_8XY5 s X Y
  else if N = 0x7 then op_8XY7 s X Y
  else if N = 0x6 then op_8XY6 s X Y
  else if N = 0xE then op_8XYE s X Y
  else s

/-- chip8.c lines 344-352 (BNNN). -/
def op_BNNN (s : State) (X NN NNN : Nat) : State :=
  if s.new_jump then
    let XNN := u16 ((u16 X <<< 8) ||| NN)
    { s with pc := u16 (XNN + s.V X) }
  else
    { s with pc := u16 (NNN + s.V 0) }

/-- chip8.c lines 354-358 (CXNN). -/
def op_CXNN (h : Host) (s : State) (X NN : Nat) : State :=
  let r := u8 h.random
  setV s X (r &&& NN)

/-- chip8.c lines 376-385: the body of the column loop, one sprite bit applied to
the cell `display[y + row][x + col]`. -/
def draw_pixel (x y row col sprite_byte : Nat) (s : State) : State :=
  let bit := u8 ((sprite_byte >>> (7 - col)) &&& 1)
  if bit ≠ 0 then
    if s.display (y + row) (x + col) then
      setV { s with display := set2 s.display (y + row) (x + col) false } 0xF 1
    else
      { s with display := set2 s.display (y + row) (x + col) true }
  else s

/-- chip8.c lines 372-388: the column loop of the draw instruction for one sprite
row; `k` iterations remain and the next one has index `col` (entered with `k = 8`,
`col = 0`).  The statement `++X` changes a local that is not read again. -/
def draw_cols (x y row sprite_byte : Nat) : Nat → Nat → State → State
  | 0, _, s => s
  | k + 1, col, s =>
    if x + col ≥ WIDTH then s
    else draw_cols x y row sprite_byte k (col + 1) (draw_pixel x y row col sprite_byte s)

/-- chip8.c lines 366-391: the row loop of the draw instruction; `k` iterations
remain and the next one has index `row` (entered with `k = N`, `row = 0`).  The read
`memory[I + row]` is not bounds-checked in the source.  The statement `++Y` changes a
local that is not read again. -/
def draw_rows (x y : Nat) : Nat → Nat → State → Except Fault State
  | 0, _, s => .ok s
  | k + 1, row, s =>
    if y + row ≥ HEIGHT then .ok s
    else if s.I + row ≥ MEMORY_SIZE then .error .outOfBounds
    else draw_rows x y k (row + 1) (draw_cols x y row (s.memory (s.I + row)) 8 0 s)

/-- chip8.c lines 360-393 (DXYN). -/
def op_DXYN (s : State) (X Y N : Nat) : Except Fault State :=
  let x := u8 (s.V X % WIDTH)
  let y := u8 (s.V Y % HEIGHT)
  draw_rows x y N 0 (setV s 0xF 0)

/-- chip8.c lines 395-407: the inner `switch (NN)` of the `0xE000` group; `keypad` has
`NUM_KEY` entries and is indexed by `V[X]` without a check. -/
def op_EXNN (s : State) (X NN : Nat) : Except Fault State :=
  if NN = 0x9E then
    if s.V X ≥ NUM_KEY then .error .outOfBounds
    else .ok (if s.keypad (s.V X) ≠ 0 then skip s else s)
  else if NN = 0xA1 then
    if s.V X ≥ NUM_KEY then .error .outOfBounds
    else .ok (if s.keypad (s.V X) = 0 then skip s else s)
  else .ok s

/-- chip8.c lines 424-429 (FX1E). -/
def op_FX1E (s : State) (X : Nat) : State :=
  let sum := u16 (s.I + s.V X)
  let s1 := if sum > 0x0FFF then setV s 0xF 1 else setV s 0xF 0
  { s1 with I := sum }

/-- chip8.c lines 436-453: the key loop of FX0A; `n` iterations remain and the next
one has index `k` (entered with `n = NUM_KEY`, `k = 0`).  The result carries
`key_handled`. -/
def op_FX0A_loop (h : Host) (X : Nat) : Nat → Nat → Bool → Int → State → Bool × State
  | 0, _, _, _, s => (false, s)
  | n + 1, k, waiting_for_release, pressed_key, s =>
    if !waiting_for_release then
      if h.IsKeyPressed (s.keypad k) then op_FX0A_loop h X n (k + 1) true (k : Int) s
      else op_FX0A_loop h X n (k + 1) waiting_for_release pressed_key s
    else
      if (k : Int) = pressed_key ∧ h.IsKeyReleased (s.keypad k) = true then
        (true, setV s X k)
      else op_FX0A_loop h X n (k + 1) waiting_for_release pressed_key s

/-- chip8.c lines 431-456 (FX0A). -/
def op_FX0A (h : Host) (s : State) (X : Nat) : State :=
  let r := op_FX0A_loop h X NUM_KEY 0 false (-1) s
  if !r.1 then { r.2 with pc := u16sub r.2.pc 2 } else r.2

/-- chip8.c lines 458-461 (FX29). -/
def op_FX29 (s : State) (X : Nat) : State :=
  let digit := u8 (s.V X &&& 0x0F)
  { s with I := u16 (FONTSET_START_ADDRESS + digit * 5) }

/-- chip8.c lines 466-471: the digit loop of FX33 counting `i` down; the argument is
`i + 1` (entered with 3) and `r` is the value still to be split.  The store
`memory[I + i]` is not bounds-checked in the source. -/
def op_FX33_loop : Nat → Nat → State → Except Fault State
  | 0, _, s => .ok s
  | i + 1, r, s =>
    let digit := r % 10
    if s.I + i ≥ MEMORY_SIZE then .error .outOfBounds
    else op_FX33_loop i (r / 10) { s with memory := set s.memory (s.I + i) (u8 digit) }

/-- chip8.c lines 463-473 (FX33). -/
def op_FX33 (s : State) (X : Nat) : Except Fault State :=
  op_FX33_loop 3 (s.V X) s

/-- chip8.c lines 477-480: store loop with `modify_I`; `n` iterations remain, the
next one has index `j`. -/
def op_FX55_modify : Nat → Nat → State → State
  | 0, _, s => s
  | n + 1, j, s =>
    let s1 := (write s s.I (s.V j)).2
    op_FX55_modify n (j + 1) { s1 with I := u16 (s1.I + 1) }

/-- chip8.c lines 482-484: store loop without `modify_I`. -/
def op_FX55_keep : Nat → Nat → State → State
  | 0, _, s => s
  | n + 1, j, s => op_FX55_keep n (j + 1) (write s (s.I + j) (s.V j)).2

/-- chip8.c lines 475-487 (FX55): the loops run for `j = 0, ..., X`. -/
def op_FX55 (s : State) (X : Nat) : State :=
  if s.modify_I then op_FX55_modify (X + 1) 0 s else op_FX55_keep (X + 1) 0 s

/-- chip8.c lines 491-494: load loop with `modify_I`; the read `memory[I]` is not
bounds-checked in the source. -/
def op_FX65_modify : Nat → Nat → State → Except Fault State
  | 0, _, s => .ok s
  | n + 1, j, s =>
    if s.I ≥ MEMORY_SIZE then .error .outOfBounds
    else
      let s1 := setV s j (s.memory s.I)
      op_FX65_modify n (j + 1) { s1 with I := u16 (s1.I + 1) }

/-- chip8.c lines 496-498: load loop without `modify_I`; the read `memory[I + j]` is
not bounds-checked in the source. -/
def op_FX65_keep : Nat → Nat → State → Except Fault State
  | 0, _, s => .ok s
  | n + 1, j, s =>
    if s.I + j ≥ MEMORY_SIZE then .error .outOfBounds
    else op_FX65_keep n (j + 1) (setV s j (s.memory (s.I + j)))

/-- chip8.c lines 489-501 (FX65). -/
def op_FX65 (s : State) (X : Nat) : Except Fault State :=
  if s.modify_I then op_FX65_modify (X + 1) 0 s else op_FX65_keep (X + 1) 0 s

/-- chip8.c lines 409-503: the inner `switch (NN)` of the `0xF000` group; it has no
`default`. -/
def op_FXNN (h : Host) (s : State) (X NN : Nat) : Except Fault State :=
  if NN = 0x07 then .ok (setV s X s.delay_timer)
  else if NN = 0x15 then .ok { s with delay_timer := u8 (s.V X) }
  else if NN = 0x18 then .ok { s with sound_timer := u8 (s.V X) }
  else if NN = 0x1E then .ok (op_FX1E s X)
  else if NN = 0x0A then .ok (op_FX0A h s X)
  else if NN = 0x29 then .ok (op_FX29 s X)
  else if NN = 0x33 then op_FX33 s X
  else if NN = 0x55 then .ok (op_FX55 s X)
  else if NN = 0x65 then op_FX65 s X
  else .ok s

/-- chip8.c lines 222-505: the dispatch of `decode_and_execute` on the operand fields
computed before it; `group` is the switch operand `opcode & 0xF000`.  The outer
`switch` has a case for each of the sixteen values of `group`. -/
def dispatch (h : Host) (s : State) (opcode group X Y N NN NNN : Nat) : Except Fault State :=
  if opcode = 0x00E0 then .ok (clear_screen s)
  else if group = 0x1000 then .ok { s with pc := NNN }
  else if group = 0x2000 then op_2NNN s NNN
  else if group = 0x0000 then op_00EE s
  else if group = 0x3000 then .ok (if s.V X = NN then skip s else s)
  else if group = 0x4000 then .ok (if ¬ (s.V X = NN) then skip s else s)
  else if group = 0x5000 then .ok (if s.V X = s.V Y then skip s else s)
  else if group = 0x9000 then .ok (if ¬ (s.V X = s.V Y) then skip s else s)
  else if group = 0x6000 then .ok (setV s X NN)
  else if group = 0x7000 then .ok (setV s X (s.V X + NN))
  else if group = 0x8000 then .ok (op_8XYN s X Y N)
  else if group = 0xA000 then .ok { s with I := NNN }
  else if group = 0xB000 then .ok (op_BNNN s X NN NNN)
  else if group = 0xC000 then .ok (op_CXNN h s X NN)
  else if group = 0xD000 then op_DXYN s X Y N
  else if group = 0xE000 then op_EXNN s X NN
  else if group = 0xF000 then op_FXNN h s X NN
  else .ok s

/-- chip8.c lines 203-505: the body of `decode_and_execute` after the fetch: the
operand fields `X`, `Y`, `N`, `NN`, `NNN` (lines 203-220), then the dispatch.  The
fields are at most 15, 255 and 4095, so their conversions to `uint8_t` / `uint16_t`
are the identity and are left out. -/
def execute (h : Host) (s : State) (opcode : Nat) : Except Fault State :=
  dispatch h s opcode (opcode &&& 0xF000) ((opcode &&& 0x0F00) >>> 8)
    ((opcode &&& 0x00F0) >>> 4) (opcode &&& 0x000F) (opcode &&& 0x00FF) (opcode &&& 0x0FFF)

/-- chip8.c lines 196-506: one CPU step. -/
def decode_and_execute (h : Host) (s : State) : Except Fault State :=
  match fetch s with
  | .error e => .error e
  | .ok (opcode, s1) => execute h s1 opcode

/-- chip8.c lines 562-565: consecutive CPU steps, one per host input in the list; a
fault ends the run. -/
def run : List Host → State → Except Fault State
  | [], s => .ok s
  | h :: hs, s =>
    match decode_and_execute h s with
    | .error e => .error e
    | .ok s1 => run hs s1

/-- The instruction word with nibbles `a`, `X`, `Y`, `N` (most significant first). -/
def mkOpcode (a X Y N : Nat) : Nat := a * 4096 + X * 256 + Y * 16 + N

/-! ## Vocabulary of the statements -/

/-- Everything except the display and the flag register is the same in both states. -/
structure SameButDraw (s t : State) : Prop where
  memory : t.memory = s.memory
  V : ∀ i, i ≠ 0xF → t.V i = s.V i
  I : t.I = s.I
  pc : t.pc = s.pc
  stack : t.stack = s.stack
  sp : t.sp = s.sp
  delay_timer : t.delay_timer = s.delay_timer
  sound_timer : t.sound_timer = s.sound_timer
  keypad : t.keypad = s.keypad
  uses_vy : t.uses_vy = s.uses_vy
  new_jump : t.new_jump = s.new_jump
  modify_I : t.modify_I = s.modify_I

/-- Some cell of row `y + row` in columns `lo ≤ c < hi` is set in `s` and has its sprite
bit set. -/
def ColHit (s : State) (x y row b lo hi : Nat) : Prop :=
  ∃ c, lo ≤ c ∧ c < hi ∧ c < WIDTH ∧ b.testBit (7 - (c - x)) = true ∧
    s.display (y + row) c = true

/-- Some cell in rows `lo ≤ r < hi` and the eight sprite columns from `x` is set in `s`
and has its sprite bit (taken from `memory[I + (r - y)]`) set. -/
def RowHit (s : State) (x y lo hi : Nat) : Prop :=
  ∃ r c, lo ≤ r ∧ r < hi ∧ r < HEIGHT ∧ x ≤ c ∧ c < x + 8 ∧ c < WIDTH ∧
    (s.memory (s.I + (r - y))).testBit (7 - (c - x)) = true ∧ s.display r c = true

/-- The sprite of `N` rows at `memory[I..]`, placed with origin `(x0, y0)`, meets a set
pixel: some on-screen cell `(y0 + r, x0 + c)` with `r < N`, `c < 8` is set in `s` and
bit `7 - c` of `memory[I + r]` is set. -/
def Collides (s : State) (x0 y0 N : Nat) : Prop :=
  ∃ r c, r < N ∧ c < 8 ∧ y0 + r < HEIGHT ∧ x0 + c < WIDTH ∧
    s.display (y0 + r) (x0 + c) = true ∧ (s.memory (s.I + r)).testBit (7 - c) = true

/-- The instruction word that `fetch` reads at address `a` of `memory`. -/
def wordAt (memory : Nat → Nat) (a : Nat) : Nat :=
  u16 ((memory a <<< 8) ||| memory (a + 1))

/-- Starting at address `pc`, `memory` holds a call `2NNN` to the first target in the
list, at that target a call to the second one, and so on: a chain of nested calls with
no return in between. -/
def CallChain (memory : Nat → Nat) : Nat → List Nat → Prop
  | _, [] => True
  | pc, t :: ts =>
    pc + 1 < MEMORY_SIZE ∧ t < 4096 ∧ wordAt memory pc = 0x2000 + t ∧ CallChain memory t ts

/-- The opcode lies in one of the three groups with an inner `switch` (8XYN, EXNN,
FXNN) and its sub-code is none of the cases of that `switch`. -/
def UndefinedInGroup (opcode : Nat) : Prop :=
  (opcode / 4096 = 0x8 ∧ opcode % 16 ∈ [0x8, 0x9, 0xA, 0xB, 0xC, 0xD, 0xF]) ∨
  (opcode / 4096 = 0xE ∧ opcode % 256 ∉ [0x9E, 0xA1]) ∨
  (opcode / 4096 = 0xF ∧
    opcode % 256 ∉ [0x07, 0x0A, 0x15, 0x18, 0x1E, 0x29, 0x33, 0x55, 0x65])

/-- The state `s` with the two bytes `hi`, `lo` stored at `0x200` and `0x201`. -/
def with_program (s : State) (hi lo : Nat) : State :=
  { s with memory := fun a => if a = 0x200 then hi else if a = 0x201 then lo else s.memory a }

/-- A host that reports no key event and the random value 0. -/
def host0 : Host := ⟨0, fun _ => false, fun _ => false⟩

/-- Registers `V0 = 3`, `V1 = 250`, `VF = 5` on the initial state. -/
def regs_example : State := setV (setV (setV chip8_init 0 3) 1 250) 0xF 5

/-- A two-row sprite `FF 81` at `I = 0x300`, to be drawn at `V0 = 62`, `V1 = 31` (the
bottom right corner) on a display whose cell `(31, 62)` is set. -/
def sprite_example : State :=
  { chip8_init with
    memory := fun a => if a = 0x300 then 0xFF else if a = 0x301 then 0x81 else 0
    I := 0x300
    V := fun i => if i = 0 then 62 else if i = 1 then 31 else 0
    display := fun r c => decide (r = 31 ∧ c = 62) }


/-- A host on which every key reports a press and a release (random value 0). -/
def host_all : Host := ⟨0, fun _ => true, fun _ => true⟩

/-- chip8.c lines 508-531: `load_rom`, with the content of the file given as the list
of its bytes.  `none` is the `exit(1)` of an oversized ROM; otherwise `fread` copies
the bytes to `memory[0x200 ...]`. -/
def load_rom (s : State) (rom : List Nat) : Option State :=
  if rom.length > MEMORY_SIZE - 0x200 then none
  else some { s with memory := fun a =>
    if 0x200 ≤ a ∧ a < 0x200 + rom.length then u8 (rom.getD (a - 0x200) 0) else s.memory a }

/-- The operations on the C type `float` that `main` applies to its two accumulators:
`+`, `-` and `>=`.  The type and its operations are parameters of the model. -/
structure FloatOps (F : Type) where
  add : F → F → F
  sub : F → F → F
  ge : F → F → Bool

/-- chip8.c lines 107-124: `keypad_state`; `down k` is the result of `IsKeyDown` for
the key mapped to hex digit `k`. -/
def keypad_state (down : Nat → Bool) (s : State) : State :=
  { s with keypad := fun k => if k < NUM_KEY then (if down k then 1 else 0) else s.keypad k }

/-- chip8.c lines 568-569: the two guarded decrements of the timer loop body. -/
def timer_tick (s : State) : State :=
  let s1 := if s.delay_timer > 0 then { s with delay_timer := u8 (s.delay_timer - 1) } else s
  if s1.sound_timer > 0 then { s1 with sound_timer := u8 (s1.sound_timer - 1) } else s1

/-- chip8.c lines 567-571: the timer loop with accumulator `acc`; the first argument
bounds the number of iterations, and `none` means the loop was still running when that
bound was used up. -/
def timer_loop {F : Type} (ops : FloatOps F) (period : F) : Nat → F → State → Option (F × State)
  | 0, _, _ => none
  | n + 1, acc, s =>
    if ops.ge acc period = true then timer_loop ops period n (ops.sub acc period) (timer_tick s)
    else some (acc, s)

/-- chip8.c lines 562-565: the CPU loop with accumulator `acc`; the `i`-th call of
`decode_and_execute` in the iteration receives the host values `hostAt i`.  The first
argument bounds the number of iterations (`none` when it is used up); a fault ends the
loop. -/
def cpu_loop {F : Type} (ops : FloatOps F) (period : F) (hostAt : Nat → Host) :
    Nat → Nat → F → State → Option (Except Fault (F × State))
  | 0, _, _, _ => none
  | n + 1, i, acc, s =>
    if ops.ge acc period = true then
      match decode_and_execute (hostAt i) s with
      | .error e => some (.error e)
      | .ok s1 => cpu_loop ops period hostAt n (i + 1) (ops.sub acc period) s1
    else some (.ok (acc, s))

/-- chip8.c lines 555-571: one iteration of the loop of `main` up to the drawing: both
accumulators take the frame time `dt`, the keypad is sampled, then the CPU loop and the
timer loop run.  `cpu_period` and `timer_period` are the constants `1.0f / CPU_HZ` and
`1.0f / FPS`.  The result carries the two accumulators and the state. -/
def host_iteration {F : Type} (ops : FloatOps F) (cpu_period timer_period dt : F)
    (down : Nat → Bool) (hostAt : Nat → Host) (fuel : Nat) (cpu_accumulator timer_accumulator : F)
    (s : State) : Option (Except Fault (F × F × State)) :=
  match cpu_loop ops cpu_period hostAt fuel 0 (ops.add cpu_accumulator dt)
      (keypad_state down s) with
  | none => none
  | some (.error e) => some (.error e)
  | some (.ok (cpu_acc, s1)) =>
    match timer_loop ops timer_period fuel (ops.add timer_accumulator dt) s1 with
    | none => none
    | some (timer_acc, s2) => some (.ok (cpu_acc, timer_acc, s2))

/-- Accumulators counted in whole units of time, used for examples. -/
def natOps : FloatOps Nat := ⟨fun a b => a + b, fun a b => a - b, fun a b => decide (a ≥ b)⟩

/-- The operand that the shift instructions 8XY6 and 8XYE shift: `VY` when the
`uses_vy` quirk is enabled, `VX` when it is disabled. -/
def shift_source (s : State) (X Y : Nat) : Nat :=
  if s.uses_vy = true then s.V Y else s.V X

/-! ## Auxiliary facts: bit fields and array stores -/

theorem and_shiftLeft_mask (x m k : Nat) : x &&& (m <<< k) = ((x >>> k) &&& m) <<< k := by
  apply Nat.eq_of_testBit_eq
  intro i
  simp only [Nat.testBit_and, Nat.testBit_shiftLeft, Nat.testBit_shiftRight]
  by_cases h : k ≤ i
  · have : k + (i - k) = i := by omega
    simp [h, this]
  · simp [h]

theorem and_0xF (x : Nat) : x &&& 0x000F = x % 16 := Nat.and_pow_two_sub_one_eq_mod x 4
theorem and_0xFF (x : Nat) : x &&& 0x00FF = x % 256 := Nat.and_pow_two_sub_one_eq_mod x 8
theorem and_0xFFF (x : Nat) : x &&& 0x0FFF = x % 4096 := Nat.and_pow_two_sub_one_eq_mod x 12

theorem and_0xF000 (x : Nat) : x &&& 0xF000 = (x / 4096 % 16) * 4096 := by
  have h := and_shiftLeft_mask x 0xF 12
  have e : (0xF : Nat) <<< 12 = 0xF000 := by decide
  rw [e] at h
  rw [h, and_0xF, Nat.shiftLeft_eq, Nat.shiftRight_eq_div_pow]

theorem and_0x0F00_shift (x : Nat) : (x &&& 0x0F00) >>> 8 = x / 256 % 16 := by
  have h := and_shiftLeft_mask x 0xF 8
  have e : (0xF : Nat) <<< 8 = 0x0F00 := by decide
  rw [e] at h
  rw [h, and_0xF, Nat.shiftLeft_eq, Nat.shiftRight_eq_div_pow, Nat.shiftRight_eq_div_pow]
  omega

theorem and_0x00F0_shift (x : Nat) : (x &&& 0x00F0) >>> 4 = x / 16 % 16 := by
  have h := and_shiftLeft_mask x 0xF 4
  have e : (0xF : Nat) <<< 4 = 0x00F0 := by decide
  rw [e] at h
  rw [h, and_0xF, Nat.shiftLeft_eq, Nat.shiftRight_eq_div_pow, Nat.shiftRight_eq_div_pow]
  omega

theorem u8sub_eq (a b : Nat) (ha : a < 256) (hb : b < 256) :
    u8sub a b = if b ≤ a then a - b else a + 256 - b := by
  unfold u8sub
  split_ifs <;> omega

@[simp] theorem set_apply {α : Type} (a : Nat → α) (i : Nat) (v : α) (j : Nat) :
    set a i v j = if j = i then v else a j := rfl

@[simp] theorem set2_apply {α : Type} (d : Nat → Nat → α) (r c : Nat) (v : α) (r1 c1 : Nat) :
    set2 d r c v r1 c1 = if r1 = r ∧ c1 = c then v else d r1 c1 := rfl

/-- Dispatch of the `0x8000` group. -/
theorem execute_mk8 (h : Host) (s : State) (X Y N : Nat) (hX : X < 16) (hY : Y < 16)
    (hN : N < 16) : execute h s (mkOpcode 8 X Y N) = .ok (op_8XYN s X Y N) := by
  have e0 : mkOpcode 8 X Y N ≠ 0x00E0 := by unfold mkOpcode; omega
  have e1 : mkOpcode 8 X Y N &&& 0xF000 = 0x8000 := by
    rw [and_0xF000]; unfold mkOpcode; omega
  have e2 : (mkOpcode 8 X Y N &&& 0x0F00) >>> 8 = X := by
    rw [and_0x0F00_shift]; unfold mkOpcode; omega
  have e3 : (mkOpcode 8 X Y N &&& 0x00F0) >>> 4 = Y := by
    rw [and_0x00F0_shift]; unfold mkOpcode; omega
  have e4 : mkOpcode 8 X Y N &&& 0x000F = N := by
    rw [and_0xF]; unfold mkOpcode; omega
  simp only [execute, dispatch, e0, e1, e2, e3, e4]
  simp

/-- Dispatch of the `0xD000` group. -/
theorem execute_mkD (h : Host) (s : State) (X Y N : Nat) (hX : X < 16) (hY : Y < 16)
    (hN : N < 16) : execute h s (mkOpcode 0xD X Y N) = op_DXYN s X Y N := by
  have e0 : mkOpcode 0xD X Y N ≠ 0x00E0 := by unfold mkOpcode; omega
  have e1 : mkOpcode 0xD X Y N &&& 0xF000 = 0xD000 := by
    rw [and_0xF000]; unfold mkOpcode; omega
  have e2 : (mkOpcode 0xD X Y N &&& 0x0F00) >>> 8 = X := by
    rw [and_0x0F00_shift]; unfold mkOpcode; omega
  have e3 : (mkOpcode 0xD X Y N &&& 0x00F0) >>> 4 = Y := by
    rw [and_0x00F0_shift]; unfold mkOpcode; omega
  have e4 : mkOpcode 0xD X Y N &&& 0x000F = N := by
    rw [and_0xF]; unfold mkOpcode; omega
  simp only [execute, dispatch, e0, e1, e2, e3, e4]
  simp

/-! ## Well-formed states -/

theorem WF_init : WF chip8_init :=
  ⟨fun _ => Nat.zero_lt_succ _, fun _ => Nat.zero_lt_succ _, by decide, by decide,
   fun _ => Nat.zero_lt_succ _, by decide, by decide, by decide, fun _ => Nat.zero_lt_succ _⟩

theorem WF_setV (s : State) (i v : Nat) (hs : WF s) : WF (setV s i v) := by
  refine ⟨hs.memory_u8, ?_, hs.I_u16, hs.pc_u16, hs.stack_u16, hs.sp_u8, hs.delay_u8,
    hs.sound_u8, hs.keypad_u8⟩
  intro j
  have := hs.V_u8 j
  simp only [setV, set_apply, u8]
  split_ifs
  · exact Nat.mod_lt _ (by decide)
  · exact this

theorem WF_regs_example : WF regs_example :=
  WF_setV _ _ _ (WF_setV _ _ _ (WF_setV _ _ _ WF_init))

/-! ## Arithmetic instructions (C1, C2, C3) -/

/-- C1 (as amended): for every well-formed state and all register indices X, Y in
0..15, the ADD instruction 8XY4 succeeds and leaves VF = 1 when the old values satisfy
VX + VY > 255 and VF = 0 otherwise; when X is not 0xF the destination VX holds
(VX + VY) mod 256 (for X = 0xF the flag is written last and replaces the sum). -/
theorem add_8XY4 (h : Host) (s : State) (X Y : Nat) (hX : X < 16) (hY : Y < 16) (hs : WF s) :
    ∃ s', execute h s (mkOpcode 8 X Y 4) = .ok s' ∧
      s'.V 0xF = (if s.V X + s.V Y > 255 then 1 else 0) ∧
      (X ≠ 0xF → s'.V X = (s.V X + s.V Y) % 256) := by
  refine ⟨_, execute_mk8 h s X Y 4 hX hY (by decide), ?_, ?_⟩
  · have hx := hs.V_u8 X
    have hy := hs.V_u8 Y
    have e : (s.V X + s.V Y) % 65536 = s.V X + s.V Y := Nat.mod_eq_of_lt (by omega)
    simp only [op_8XYN, op_8XY4, setV, u8, u16, e]
    simp
    split_ifs <;> omega
  · intro hne
    simp only [op_8XYN, op_8XY4, setV, u8, u16, and_0xFF]
    simp [hne]
    omega

/-- Witness of `add_8XY4`: V1 + V1 = 500 on the example registers. -/
theorem add_8XY4_witness :
    WF regs_example ∧ ∃ s', execute host0 regs_example (mkOpcode 8 1 1 4) = .ok s' ∧
      s'.V 0xF = (if regs_example.V 1 + regs_example.V 1 > 255 then 1 else 0) ∧
      ((1 : Nat) ≠ 0xF → s'.V 1 = (regs_example.V 1 + regs_example.V 1) % 256) :=
  ⟨WF_regs_example, add_8XY4 host0 regs_example 1 1 (by decide) (by decide) WF_regs_example⟩

/-- C1 as stated fails for X = 0xF: with VF = 5 and V0 = 3 the instruction 8F04 ends
with VF = 0 (the carry flag), not with (VF + V0) mod 256 = 8. -/
theorem add_8XY4_dest_counterexample :
    ∃ s', execute host0 regs_example (mkOpcode 8 0xF 0 4) = .ok s' ∧
      s'.V 0xF = 0 ∧ (regs_example.V 0xF + regs_example.V 0) % 256 = 8 :=
  ⟨_, execute_mk8 host0 regs_example 0xF 0 4 (by decide) (by decide) (by decide),
    by decide, by decide⟩

/-- C2 (as amended): for every well-formed state and all register indices X, Y in
0..15, SUB VX,VY (8XY5) succeeds and leaves VF = 1 if the old values satisfy VX >= VY
and VF = 0 otherwise; when X is not 0xF the destination VX holds (VX - VY) mod 256 (for
X = 0xF the flag is written last and replaces the difference). -/
theorem sub_8XY5 (h : Host) (s : State) (X Y : Nat) (hX : X < 16) (hY : Y < 16) (hs : WF s) :
    ∃ s', execute h s (mkOpcode 8 X Y 5) = .ok s' ∧
      s'.V 0xF = (if s.V X ≥ s.V Y then 1 else 0) ∧
      (X ≠ 0xF → (s'.V X : Int) = ((s.V X : Int) - (s.V Y : Int)) % 256) := by
  refine ⟨_, execute_mk8 h s X Y 5 hX hY (by decide), ?_, ?_⟩
  · simp only [op_8XYN, op_8XY5, setV, u8]
    simp
    split_ifs <;> omega
  · intro hne
    have hx := hs.V_u8 X
    have hy := hs.V_u8 Y
    have e := u8sub_eq (s.V X) (s.V Y) hx hy
    simp only [op_8XYN, op_8XY5, setV, u8, e]
    simp [hne]
    split_ifs <;> omega

/-- Witness of `sub_8XY5`: V0 - V1 = 3 - 250 on the example registers. -/
theorem sub_8XY5_witness :
    WF regs_example ∧ ∃ s', execute host0 regs_example (mkOpcode 8 0 1 5) = .ok s' ∧
      s'.V 0xF = (if regs_example.V 0 ≥ regs_example.V 1 then 1 else 0) ∧
      ((0 : Nat) ≠ 0xF →
        (s'.V 0 : Int) = ((regs_example.V 0 : Int) - (regs_example.V 1 : Int)) % 256) :=
  ⟨WF_regs_example, sub_8XY5 host0 regs_example 0 1 (by decide) (by decide) WF_regs_example⟩

/-- C2 as stated fails for X = 0xF: with VF = 5 and V0 = 3 the instruction 8F05 ends
with VF = 1 (the flag), not with (VF - V0) mod 256 = 2. -/
theorem sub_8XY5_dest_counterexample :
    ∃ s', execute host0 regs_example (mkOpcode 8 0xF 0 5) = .ok s' ∧
      s'.V 0xF = 1 ∧
      ((regs_example.V 0xF : Int) - (regs_example.V 0 : Int)) % 256 = 2 :=
  ⟨_, execute_mk8 host0 regs_example 0xF 0 5 (by decide) (by decide) (by decide),
    by decide, by decide⟩

/-- C3: for every well-formed state and all register indices X, Y in 0..15 (X = Y and
0xF included), the reverse subtraction 8XY7 succeeds and ends with VF = 1 if the values
held before the instruction satisfy VY >= VX and with VF = 0 otherwise, although the
code compares after it has overwritten VX. -/
theorem sub_8XY7_flag (h : Host) (s : State) (X Y : Nat) (hX : X < 16) (hY : Y < 16)
    (hs : WF s) :
    ∃ s', execute h s (mkOpcode 8 X Y 7) = .ok s' ∧
      s'.V 0xF = (if s.V Y ≥ s.V X then 1 else 0) := by
  refine ⟨_, execute_mk8 h s X Y 7 hX hY (by decide), ?_⟩
  have hx := hs.V_u8 X
  have hy := hs.V_u8 Y
  have e := u8sub_eq (s.V Y) (s.V X) hy hx
  simp only [op_8XYN, op_8XY7, setV, u8, e]
  simp
  by_cases hxy : Y = X
  · subst hxy; simp
  · simp only [hxy, if_false]
    split_ifs <;> omega

/-- Witness of `sub_8XY7_flag`: V0 - V1 = 3 - 250 borrows. -/
theorem sub_8XY7_flag_witness :
    WF regs_example ∧ ∃ s', execute host0 regs_example (mkOpcode 8 1 0 7) = .ok s' ∧
      s'.V 0xF = (if regs_example.V 0 ≥ regs_example.V 1 then 1 else 0) :=
  ⟨WF_regs_example,
    sub_8XY7_flag host0 regs_example 1 0 (by decide) (by decide) WF_regs_example⟩

/-! ## The draw instruction -/

/-- Bit `k` of a byte, as the source extracts it. -/
theorem sprite_bit (b k : Nat) : (u8 ((b >>> k) &&& 1) ≠ 0) ↔ b.testBit k = true := by
  have h1 : (b >>> k) &&& 1 = (b >>> k) % 2 := Nat.and_pow_two_sub_one_eq_mod (b >>> k) 1
  rw [h1, Nat.testBit, Nat.and_comm, h1]
  unfold u8
  have : (b >>> k) % 2 < 2 := Nat.mod_lt _ (by decide)
  have e : (b >>> k) % 2 % 256 = (b >>> k) % 2 := Nat.mod_eq_of_lt (by omega)
  rw [e]
  simp

theorem SameButDraw.refl (s : State) : SameButDraw s s :=
  ⟨rfl, fun _ _ => rfl, rfl, rfl, rfl, rfl, rfl, rfl, rfl, rfl, rfl, rfl⟩

theorem SameButDraw.trans {s t u : State} (h1 : SameButDraw s t) (h2 : SameButDraw t u) :
    SameButDraw s u :=
  ⟨h2.memory.trans h1.memory, fun i hi => (h2.V i hi).trans (h1.V i hi), h2.I.trans h1.I,
   h2.pc.trans h1.pc, h2.stack.trans h1.stack, h2.sp.trans h1.sp,
   h2.delay_timer.trans h1.delay_timer, h2.sound_timer.trans h1.sound_timer,
   h2.keypad.trans h1.keypad, h2.uses_vy.trans h1.uses_vy, h2.new_jump.trans h1.new_jump,
   h2.modify_I.trans h1.modify_I⟩

theorem draw_pixel_same (x y row col b : Nat) (s : State) :
    SameButDraw s (draw_pixel x y row col b s) := by
  unfold draw_pixel
  simp only []
  split_ifs
  · exact ⟨rfl, fun i hi => by simp [setV, hi], rfl, rfl, rfl, rfl, rfl, rfl, rfl, rfl, rfl, rfl⟩
  · exact ⟨rfl, fun _ _ => rfl, rfl, rfl, rfl, rfl, rfl, rfl, rfl, rfl, rfl, rfl⟩
  · exact SameButDraw.refl s

theorem draw_pixel_display (x y row col b : Nat) (s : State) (r c : Nat) :
    (draw_pixel x y row col b s).display r c =
      if r = y + row ∧ c = x + col then xor (s.display r c) (b.testBit (7 - col))
      else s.display r c := by
  unfold draw_pixel
  simp only []
  by_cases hb : b.testBit (7 - col) = true
  · have hb1 := (sprite_bit b (7 - col)).mpr hb
    rw [if_pos hb1]
    by_cases hd : s.display (y + row) (x + col) = true
    · rw [if_pos hd]
      by_cases hrc : r = y + row ∧ c = x + col
      · obtain ⟨h1, h2⟩ := hrc
        subst h1 h2
        simp [setV, hb, hd]
      · simp [setV, hrc]
    · rw [if_neg hd]
      by_cases hrc : r = y + row ∧ c = x + col
      · obtain ⟨h1, h2⟩ := hrc
        subst h1 h2
        simp [hb, hd]
      · simp [hrc]
  · have hb1 : ¬ (u8 ((b >>> (7 - col)) &&& 1) ≠ 0) := fun h => hb ((sprite_bit b (7 - col)).mp h)
    rw [if_neg hb1]
    simp at hb
    simp [hb]

theorem draw_pixel_flag (x y row col b : Nat) (s : State) :
    (draw_pixel x y row col b s).V 0xF =
      if b.testBit (7 - col) = true ∧ s.display (y + row) (x + col) = true then 1
      else s.V 0xF := by
  unfold draw_pixel
  simp only []
  by_cases hb : b.testBit (7 - col) = true
  · have hb1 := (sprite_bit b (7 - col)).mpr hb
    rw [if_pos hb1]
    by_cases hd : s.display (y + row) (x + col) = true
    · rw [if_pos hd]; simp [setV, hb, hd, u8]
    · rw [if_neg hd]; simp [hb, hd]
  · have hb1 : ¬ (u8 ((b >>> (7 - col)) &&& 1) ≠ 0) := fun h => hb ((sprite_bit b (7 - col)).mp h)
    rw [if_neg hb1]
    simp [hb]

theorem draw_cols_spec (x y row b : Nat) : ∀ (k col : Nat) (s : State),
    SameButDraw s (draw_cols x y row b k col s) ∧
    (∀ r c, (draw_cols x y row b k col s).display r c =
      if r = y + row ∧ x + col ≤ c ∧ c < x + col + k ∧ c < WIDTH then
        xor (s.display r c) (b.testBit (7 - (c - x)))
      else s.display r c) ∧
    (ColHit s x y row b (x + col) (x + col + k) → (draw_cols x y row b k col s).V 0xF = 1) ∧
    (¬ ColHit s x y row b (x + col) (x + col + k) →
      (draw_cols x y row b k col s).V 0xF = s.V 0xF) := by
  intro k
  induction k with
  | zero =>
    intro col s
    refine ⟨SameButDraw.refl s, ?_, ?_, ?_⟩
    · intro r c
      have : ¬ (r = y + row ∧ x + col ≤ c ∧ c < x + col + 0 ∧ c < WIDTH) := by omega
      rw [if_neg this]; rfl
    · rintro ⟨c, h1, h2, _⟩; omega
    · intro _; rfl
  | succ k ih =>
    intro col s
    by_cases hw : x + col ≥ WIDTH
    · have e : draw_cols x y row b (k + 1) col s = s := by simp [draw_cols, hw]
      rw [e]
      refine ⟨SameButDraw.refl s, ?_, ?_, ?_⟩
      · intro r c
        have : ¬ (r = y + row ∧ x + col ≤ c ∧ c < x + col + (k + 1) ∧ c < WIDTH) := by omega
        rw [if_neg this]
      · rintro ⟨c, h1, h2, h3, _⟩; omega
      · intro _; rfl
    · have e : draw_cols x y row b (k + 1) col s =
          draw_cols x y row b k (col + 1) (draw_pixel x y row col b s) := by
        simp [draw_cols, hw]
      rw [e]
      obtain ⟨i1, i2, i3, i4⟩ := ih (col + 1) (draw_pixel x y row col b s)
      have hcol : 7 - (x + col - x) = 7 - col := by
        have : x + col - x = col := by omega
        rw [this]
      have hiff : ColHit s x y row b (x + col) (x + col + (k + 1)) ↔
          ((b.testBit (7 - col) = true ∧ s.display (y + row) (x + col) = true) ∨
            ColHit (draw_pixel x y row col b s) x y row b (x + (col + 1)) (x + (col + 1) + k)) := by
        constructor
        · rintro ⟨c, h1, h2, h3, h4, h5⟩
          by_cases hc : c = x + col
          · subst hc
            left
            rw [hcol] at h4
            exact ⟨h4, h5⟩
          · right
            refine ⟨c, by omega, by omega, h3, h4, ?_⟩
            rw [draw_pixel_display, if_neg (by omega)]
            exact h5
        · rintro (⟨h4, h5⟩ | ⟨c, h1, h2, h3, h4, h5⟩)
          · refine ⟨x + col, le_refl _, by omega, by unfold WIDTH at *; omega, ?_, h5⟩
            rw [hcol]; exact h4
          · rw [draw_pixel_display, if_neg (by omega)] at h5
            exact ⟨c, by omega, by omega, h3, h4, h5⟩
      refine ⟨(draw_pixel_same x y row col b s).trans i1, ?_, ?_, ?_⟩
      · intro r c
        rw [i2, draw_pixel_display]
        by_cases hc : r = y + row ∧ c = x + col
        · obtain ⟨hr, hc⟩ := hc
          subst hr hc
          rw [if_neg (by omega), if_pos ⟨rfl, rfl⟩, if_pos (by unfold WIDTH at *; omega), hcol]
        · rw [if_neg hc]
          by_cases hin : r = y + row ∧ x + (col + 1) ≤ c ∧ c < x + (col + 1) + k ∧ c < WIDTH
          · rw [if_pos hin, if_pos (by omega)]
          · rw [if_neg hin, if_neg (by omega)]
      · intro hhit
        rcases hiff.mp hhit with hnow | hlater
        · by_cases hl : ColHit (draw_pixel x y row col b s) x y row b (x + (col + 1))
              (x + (col + 1) + k)
          · exact i3 hl
          · rw [i4 hl, draw_pixel_flag, if_pos hnow]
        · exact i3 hlater
      · intro hno
        have h1 : ¬ (b.testBit (7 - col) = true ∧ s.display (y + row) (x + col) = true) :=
          fun h => hno (hiff.mpr (Or.inl h))
        have h2 : ¬ ColHit (draw_pixel x y row col b s) x y row b (x + (col + 1))
            (x + (col + 1) + k) := fun h => hno (hiff.mpr (Or.inr h))
        rw [i4 h2, draw_pixel_flag, if_neg h1]

theorem draw_rows_spec (x y : Nat) : ∀ (k row : Nat) (s s' : State),
    draw_rows x y k row s = .ok s' →
    SameButDraw s s' ∧
    (∀ r c, s'.display r c =
      if y + row ≤ r ∧ r < y + row + k ∧ r < HEIGHT ∧ x ≤ c ∧ c < x + 8 ∧ c < WIDTH then
        xor (s.display r c) ((s.memory (s.I + (r - y))).testBit (7 - (c - x)))
      else s.display r c) ∧
    (RowHit s x y (y + row) (y + row + k) → s'.V 0xF = 1) ∧
    (¬ RowHit s x y (y + row) (y + row + k) → s'.V 0xF = s.V 0xF) := by
  intro k
  induction k with
  | zero =>
    intro row s s' h
    have e : s' = s := by
      simp only [draw_rows] at h
      exact (Except.ok.inj h).symm
    subst e
    refine ⟨SameButDraw.refl _, ?_, ?_, ?_⟩
    · intro r c
      rw [if_neg (by omega)]
    · rintro ⟨r, c, h1, h2, _⟩; omega
    · intro _; rfl
  | succ k ih =>
    intro row s s' h
    by_cases hh : y + row ≥ HEIGHT
    · have e : s' = s := by
        simp only [draw_rows, if_pos hh] at h
        exact (Except.ok.inj h).symm
      subst e
      refine ⟨SameButDraw.refl _, ?_, ?_, ?_⟩
      · intro r c
        rw [if_neg (by omega)]
      · rintro ⟨r, c, h1, h2, h3, _⟩; omega
      · intro _; rfl
    · by_cases hm : s.I + row ≥ MEMORY_SIZE
      · simp [draw_rows, hh, hm] at h
      · simp only [draw_rows, if_neg hh, if_neg hm] at h
        obtain ⟨c1, c2, c3, c4⟩ := draw_cols_spec x y row (s.memory (s.I + row)) 8 0 s
        obtain ⟨i1, i2, i3, i4⟩ := ih (row + 1) _ s' h
        rw [c1.memory, c1.I] at i2
        have hrow : s.I + (y + row - y) = s.I + row := by
          have : y + row - y = row := by omega
          rw [this]
        have hiff : RowHit s x y (y + row) (y + row + (k + 1)) ↔
            (ColHit s x y row (s.memory (s.I + row)) (x + 0) (x + 0 + 8) ∨
              RowHit (draw_cols x y row (s.memory (s.I + row)) 8 0 s) x y (y + (row + 1))
                (y + (row + 1) + k)) := by
          constructor
          · rintro ⟨r, c, h1, h2, h3, h4, h5, h6, h7, h8⟩
            by_cases hr : r = y + row
            · subst hr
              left
              rw [hrow] at h7
              exact ⟨c, by omega, by omega, h6, h7, h8⟩
            · right
              refine ⟨r, c, by omega, by omega, h3, h4, h5, h6, ?_, ?_⟩
              · rw [c1.memory, c1.I]; exact h7
              · rw [c2, if_neg (by omega)]; exact h8
          · rintro (⟨c, h1, h2, h3, h4, h5⟩ | ⟨r, c, h1, h2, h3, h4, h5, h6, h7, h8⟩)
            · refine ⟨y + row, c, le_refl _, by omega, by omega, by omega, by omega, h3, ?_, h5⟩
              rw [hrow]; exact h4
            · rw [c1.memory, c1.I] at h7
              rw [c2, if_neg (by omega)] at h8
              exact ⟨r, c, by omega, by omega, h3, h4, h5, h6, h7, h8⟩
        refine ⟨c1.trans i1, ?_, ?_, ?_⟩
        · intro r c
          by_cases hr : r = y + row
          · subst hr
            rw [i2, if_neg (by omega), c2, hrow]
            by_cases hc : x ≤ c ∧ c < x + 8 ∧ c < WIDTH
            · rw [if_pos (by omega), if_pos (by omega)]
            · rw [if_neg (by omega), if_neg (by omega)]
          · have hd : (draw_cols x y row (s.memory (s.I + row)) 8 0 s).display r c =
                s.display r c := by
              rw [c2, if_neg (by omega)]
            rw [i2, hd]
            by_cases hin : y + (row + 1) ≤ r ∧ r < y + (row + 1) + k ∧ r < HEIGHT ∧ x ≤ c ∧
                c < x + 8 ∧ c < WIDTH
            · rw [if_pos hin, if_pos (by omega)]
            · rw [if_neg hin, if_neg (by omega)]
        · intro hhit
          rcases hiff.mp hhit with hnow | hlater
          · by_cases hl : RowHit (draw_cols x y row (s.memory (s.I + row)) 8 0 s) x y
                (y + (row + 1)) (y + (row + 1) + k)
            · exact i3 hl
            · rw [i4 hl]; exact c3 hnow
          · exact i3 hlater
        · intro hno
          have h1 : ¬ ColHit s x y row (s.memory (s.I + row)) (x + 0) (x + 0 + 8) :=
            fun h => hno (hiff.mpr (Or.inl h))
          have h2 : ¬ RowHit (draw_cols x y row (s.memory (s.I + row)) 8 0 s) x y
              (y + (row + 1)) (y + (row + 1) + k) := fun h => hno (hiff.mpr (Or.inr h))
          rw [i4 h2]; exact c4 h1

theorem draw_rows_total (x y : Nat) : ∀ (k row : Nat) (s : State),
    s.I + (row + k) ≤ MEMORY_SIZE → ∃ s', draw_rows x y k row s = .ok s' := by
  intro k
  induction k with
  | zero => intro row s _; exact ⟨s, rfl⟩
  | succ k ih =>
    intro row s hb
    by_cases hh : y + row ≥ HEIGHT
    · exact ⟨s, by simp [draw_rows, hh]⟩
    · have hm : ¬ s.I + row ≥ MEMORY_SIZE := by omega
      simp only [draw_rows, if_neg hh, if_neg hm]
      apply ih
      rw [(draw_cols_spec x y row (s.memory (s.I + row)) 8 0 s).1.I]
      omega

theorem op_DXYN_spec (s s' : State) (X Y N : Nat) (h : op_DXYN s X Y N = .ok s') :
    SameButDraw s s' ∧
    (∀ r c, s'.display r c =
      if s.V Y % 32 ≤ r ∧ r < s.V Y % 32 + N ∧ r < HEIGHT ∧ s.V X % 64 ≤ c ∧
          c < s.V X % 64 + 8 ∧ c < WIDTH then
        xor (s.display r c) ((s.memory (s.I + (r - s.V Y % 32))).testBit (7 - (c - s.V X % 64)))
      else s.display r c) ∧
    (RowHit s (s.V X % 64) (s.V Y % 32) (s.V Y % 32) (s.V Y % 32 + N) → s'.V 0xF = 1) ∧
    (¬ RowHit s (s.V X % 64) (s.V Y % 32) (s.V Y % 32) (s.V Y % 32 + N) → s'.V 0xF = 0) := by
  have ex : u8 (s.V X % WIDTH) = s.V X % 64 := by unfold u8 WIDTH; omega
  have ey : u8 (s.V Y % HEIGHT) = s.V Y % 32 := by unfold u8 HEIGHT; omega
  unfold op_DXYN at h
  simp only [ex, ey] at h
  obtain ⟨d1, d2, d3, d4⟩ := draw_rows_spec (s.V X % 64) (s.V Y % 32) N 0 (setV s 0xF 0) s' h
  have s0 : SameButDraw s (setV s 0xF 0) :=
    ⟨rfl, fun i hi => by simp [setV, hi], rfl, rfl, rfl, rfl, rfl, rfl, rfl, rfl, rfl, rfl⟩
  refine ⟨s0.trans d1, ?_, ?_, ?_⟩
  · intro r c
    exact d2 r c
  · intro hhit
    exact d3 hhit
  · intro hno
    rw [d4 hno]
    simp [setV, u8]

theorem op_DXYN_total (s : State) (X Y N : Nat) (hmem : s.I + N ≤ MEMORY_SIZE) :
    ∃ s', op_DXYN s X Y N = .ok s' := by
  unfold op_DXYN
  apply draw_rows_total
  simpa [setV] using hmem

theorem RowHit_iff (s : State) (x y N : Nat) :
    RowHit s x y y (y + N) ↔ Collides s x y N := by
  constructor
  · rintro ⟨r, c, h1, h2, h3, h4, h5, h6, h7, h8⟩
    have er : y + (r - y) = r := by omega
    have ec : x + (c - x) = c := by omega
    refine ⟨r - y, c - x, by omega, by omega, by omega, by omega, ?_, h7⟩
    rw [er, ec]; exact h8
  · rintro ⟨r, c, h1, h2, h3, h4, h5, h6⟩
    have er : y + r - y = r := by omega
    have ec : x + c - x = c := by omega
    refine ⟨y + r, x + c, by omega, by omega, h3, by omega, by omega, h4, ?_, h5⟩
    rw [er, ec]; exact h6

/-! ## The draw instruction (C4, C5, C6) -/

/-- C6: for every state whose sprite bytes memory[I..I+N-1] lie inside the store, DXYN
succeeds; afterwards every on-screen cell (y0 + r, x0 + c) with r < N, c < 8,
y0 = VY mod 32, x0 = VX mod 64 holds its old value XOR bit (7 - c) of memory[I + r],
and VF is 1 if one of those cells was set before the draw and had its sprite bit set,
and 0 otherwise. -/
theorem draw_DXYN_cells (h : Host) (s : State) (X Y N : Nat) (hX : X < 16) (hY : Y < 16)
    (hN : N < 16) (hmem : s.I + N ≤ MEMORY_SIZE) :
    ∃ s', execute h s (mkOpcode 0xD X Y N) = .ok s' ∧
      (∀ r c, r < N → c < 8 → s.V Y % 32 + r < HEIGHT → s.V X % 64 + c < WIDTH →
        s'.display (s.V Y % 32 + r) (s.V X % 64 + c) =
          xor (s.display (s.V Y % 32 + r) (s.V X % 64 + c))
            ((s.memory (s.I + r)).testBit (7 - c))) ∧
      (Collides s (s.V X % 64) (s.V Y % 32) N → s'.V 0xF = 1) ∧
      (¬ Collides s (s.V X % 64) (s.V Y % 32) N → s'.V 0xF = 0) := by
  obtain ⟨s', e⟩ := op_DXYN_total s X Y N hmem
  obtain ⟨_, d2, d3, d4⟩ := op_DXYN_spec s s' X Y N e
  refine ⟨s', (execute_mkD h s X Y N hX hY hN).trans e, ?_, ?_, ?_⟩
  · intro r c hr hc hrow hcol
    have er : s.V Y % 32 + r - s.V Y % 32 = r := by omega
    have ec : s.V X % 64 + c - s.V X % 64 = c := by omega
    rw [d2, if_pos (by omega), er, ec]
  · intro hc
    exact d3 ((RowHit_iff s _ _ N).mpr hc)
  · intro hc
    exact d4 (fun hr => hc ((RowHit_iff s _ _ N).mp hr))

/-- Witness of `draw_DXYN_cells`: the two-row example sprite at the bottom right
corner. -/
theorem draw_DXYN_cells_witness :
    sprite_example.I + 2 ≤ MEMORY_SIZE ∧
    ∃ s', execute host0 sprite_example (mkOpcode 0xD 0 1 2) = .ok s' ∧
      (∀ r c, r < 2 → c < 8 → sprite_example.V 1 % 32 + r < HEIGHT →
        sprite_example.V 0 % 64 + c < WIDTH →
        s'.display (sprite_example.V 1 % 32 + r) (sprite_example.V 0 % 64 + c) =
          xor (sprite_example.display (sprite_example.V 1 % 32 + r)
              (sprite_example.V 0 % 64 + c))
            ((sprite_example.memory (sprite_example.I + r)).testBit (7 - c))) ∧
      (Collides sprite_example (sprite_example.V 0 % 64) (sprite_example.V 1 % 32) 2 →
        s'.V 0xF = 1) ∧
      (¬ Collides sprite_example (sprite_example.V 0 % 64) (sprite_example.V 1 % 32) 2 →
        s'.V 0xF = 0) :=
  ⟨by decide,
    draw_DXYN_cells host0 sprite_example 0 1 2 (by decide) (by decide) (by decide) (by decide)⟩

/-- C5: DXYN draws with origin x0 = VX mod 64, y0 = VY mod 32 and clips at the far
edges.  It succeeds when the sprite bytes lie inside the store, and whenever it
succeeds every display cell outside the rectangle y0 <= row < min(y0 + N, 32),
x0 <= col < min(x0 + 8, 64) is unchanged; in particular a sprite row with y0 + r > 31
or a sprite column with x0 + c > 63 leaves the wrapped position
((y0 + r) mod 32, (x0 + c) mod 64) unchanged. -/
theorem draw_DXYN_clips (h : Host) (s : State) (X Y N : Nat) (hX : X < 16) (hY : Y < 16)
    (hN : N < 16) :
    (s.I + N ≤ MEMORY_SIZE → ∃ s', execute h s (mkOpcode 0xD X Y N) = .ok s') ∧
    (∀ s', execute h s (mkOpcode 0xD X Y N) = .ok s' →
      (∀ row col,
        ¬ (s.V Y % 32 ≤ row ∧ row < min (s.V Y % 32 + N) 32 ∧
            s.V X % 64 ≤ col ∧ col < min (s.V X % 64 + 8) 64) →
        s'.display row col = s.display row col) ∧
      (∀ r c, r < N → c < 8 → (s.V Y % 32 + r > 31 ∨ s.V X % 64 + c > 63) →
        s'.display ((s.V Y % 32 + r) % 32) ((s.V X % 64 + c) % 64) =
          s.display ((s.V Y % 32 + r) % 32) ((s.V X % 64 + c) % 64))) := by
  constructor
  · intro hmem
    obtain ⟨s', e⟩ := op_DXYN_total s X Y N hmem
    exact ⟨s', (execute_mkD h s X Y N hX hY hN).trans e⟩
  · intro s' e
    rw [execute_mkD h s X Y N hX hY hN] at e
    obtain ⟨_, d2, _, _⟩ := op_DXYN_spec s s' X Y N e
    constructor
    · intro row col hout
      rw [d2, if_neg]
      unfold HEIGHT WIDTH
      omega
    · intro r c hr hc hwrap
      rw [d2, if_neg]
      unfold HEIGHT WIDTH
      omega

/-- Witness of `draw_DXYN_clips`: the example sprite at (62, 31) has one row and six
columns beyond the edges. -/
theorem draw_DXYN_clips_witness :
    sprite_example.I + 2 ≤ MEMORY_SIZE ∧
    ∃ s', execute host0 sprite_example (mkOpcode 0xD 0 1 2) = .ok s' ∧
      (∀ row col,
        ¬ (sprite_example.V 1 % 32 ≤ row ∧ row < min (sprite_example.V 1 % 32 + 2) 32 ∧
            sprite_example.V 0 % 64 ≤ col ∧ col < min (sprite_example.V 0 % 64 + 8) 64) →
        s'.display row col = sprite_example.display row col) ∧
      (∀ r c, r < 2 → c < 8 →
        (sprite_example.V 1 % 32 + r > 31 ∨ sprite_example.V 0 % 64 + c > 63) →
        s'.display ((sprite_example.V 1 % 32 + r) % 32) ((sprite_example.V 0 % 64 + c) % 64) =
          sprite_example.display ((sprite_example.V 1 % 32 + r) % 32)
            ((sprite_example.V 0 % 64 + c) % 64)) := by
  have T := draw_DXYN_clips host0 sprite_example 0 1 2 (by decide) (by decide) (by decide)
  obtain ⟨s', e⟩ := T.1 (by decide)
  exact ⟨by decide, s', e, T.2 s' e⟩

/-- C4: when the sprite bytes memory[I..I+N-1] lie inside the store, two DXYN draws in
a row both succeed, and if VX and VY hold the same values at the second draw as at the
first (automatic when X and Y are not 0xF), the display after the second draw is
exactly the display before the first, and the second draw ends with VF = 1 if the
first draw turned on at least one pixel and with VF = 0 otherwise. -/
theorem draw_DXYN_twice (h1 h2 : Host) (s : State) (X Y N : Nat) (hX : X < 16) (hY : Y < 16)
    (hN : N < 16) (hmem : s.I + N ≤ MEMORY_SIZE) :
    ∃ s1 s2, execute h1 s (mkOpcode 0xD X Y N) = .ok s1 ∧
      execute h2 s1 (mkOpcode 0xD X Y N) = .ok s2 ∧
      (X ≠ 0xF → s1.V X = s.V X) ∧ (Y ≠ 0xF → s1.V Y = s.V Y) ∧
      (s1.V X = s.V X → s1.V Y = s.V Y →
        (∀ r c, s2.display r c = s.display r c) ∧
        ((∃ r c, s.display r c = false ∧ s1.display r c = true) → s2.V 0xF = 1) ∧
        ((¬ ∃ r c, s.display r c = false ∧ s1.display r c = true) → s2.V 0xF = 0)) := by
  obtain ⟨s1, e1⟩ := op_DXYN_total s X Y N hmem
  obtain ⟨a1, a2, _, _⟩ := op_DXYN_spec s s1 X Y N e1
  have hmem1 : s1.I + N ≤ MEMORY_SIZE := by rw [a1.I]; exact hmem
  obtain ⟨s2, e2⟩ := op_DXYN_total s1 X Y N hmem1
  obtain ⟨_, b2, b3, b4⟩ := op_DXYN_spec s1 s2 X Y N e2
  refine ⟨s1, s2, (execute_mkD h1 s X Y N hX hY hN).trans e1,
    (execute_mkD h2 s1 X Y N hX hY hN).trans e2, a1.V X, a1.V Y, ?_⟩
  intro hx hy
  rw [hx, hy, a1.memory, a1.I] at b2
  rw [hx, hy] at b3 b4
  have hturn : (∃ r c, s.display r c = false ∧ s1.display r c = true) ↔
      RowHit s1 (s.V X % 64) (s.V Y % 32) (s.V Y % 32) (s.V Y % 32 + N) := by
    constructor
    · rintro ⟨r, c, h0, h1⟩
      rw [a2] at h1
      by_cases hin : s.V Y % 32 ≤ r ∧ r < s.V Y % 32 + N ∧ r < HEIGHT ∧ s.V X % 64 ≤ c ∧
          c < s.V X % 64 + 8 ∧ c < WIDTH
      · rw [if_pos hin, h0] at h1
        simp only [Bool.false_xor] at h1
        obtain ⟨i1, i2, i3, i4, i5, i6⟩ := hin
        refine ⟨r, c, i1, i2, i3, i4, i5, i6, ?_, ?_⟩
        · rw [a1.memory, a1.I]; exact h1
        · rw [a2, if_pos ⟨i1, i2, i3, i4, i5, i6⟩, h0, h1]; rfl
      · rw [if_neg hin, h0] at h1
        exact absurd h1 (by simp)
    · rintro ⟨r, c, i1, i2, i3, i4, i5, i6, i7, i8⟩
      rw [a1.memory, a1.I] at i7
      rw [a2, if_pos ⟨i1, i2, i3, i4, i5, i6⟩, i7] at i8
      have h0 : s.display r c = false := by
        cases hd : s.display r c
        · rfl
        · rw [hd] at i8; exact absurd i8 (by decide)
      refine ⟨r, c, h0, ?_⟩
      rw [a2, if_pos ⟨i1, i2, i3, i4, i5, i6⟩, i7, h0]; rfl
  refine ⟨?_, ?_, ?_⟩
  · intro r c
    rw [b2, a2]
    split_ifs
    · cases s.display r c <;>
        cases (s.memory (s.I + (r - s.V Y % 32))).testBit (7 - (c - s.V X % 64)) <;> rfl
    · rfl
  · intro ht
    exact b3 (hturn.mp ht)
  · intro ht
    exact b4 (fun hr => ht (hturn.mpr hr))

/-- Witness of `draw_DXYN_twice`: the example sprite drawn twice through V0, V1. -/
theorem draw_DXYN_twice_witness :
    sprite_example.I + 2 ≤ MEMORY_SIZE ∧
    ∃ s1 s2, execute host0 sprite_example (mkOpcode 0xD 0 1 2) = .ok s1 ∧
      execute host0 s1 (mkOpcode 0xD 0 1 2) = .ok s2 ∧
      s1.V 0 = sprite_example.V 0 ∧ s1.V 1 = sprite_example.V 1 ∧
      (∀ r c, s2.display r c = sprite_example.display r c) ∧
      ((∃ r c, sprite_example.display r c = false ∧ s1.display r c = true) →
        s2.V 0xF = 1) ∧
      ((¬ ∃ r c, sprite_example.display r c = false ∧ s1.display r c = true) →
        s2.V 0xF = 0) := by
  obtain ⟨s1, s2, e1, e2, hx, hy, hrest⟩ :=
    draw_DXYN_twice host0 host0 sprite_example 0 1 2 (by decide) (by decide) (by decide)
      (by decide)
  exact ⟨by decide, s1, s2, e1, e2, hx (by decide), hy (by decide),
    hrest (hx (by decide)) (hy (by decide))⟩


/-! ## Fetch and dispatch -/

theorem fetch_ok (s : State) (hpc : s.pc + 1 < MEMORY_SIZE) :
    fetch s = .ok (wordAt s.memory s.pc, { s with pc := s.pc + 2 }) := by
  have h1 : ¬ s.pc + 1 ≥ MEMORY_SIZE := by omega
  have h2 : u16 (s.pc + 2) = s.pc + 2 := by unfold u16; unfold MEMORY_SIZE at hpc; omega
  simp only [fetch, if_neg h1, h2, wordAt]

theorem decode_and_execute_eq (h : Host) (s : State) (hpc : s.pc + 1 < MEMORY_SIZE) :
    decode_and_execute h s = execute h { s with pc := s.pc + 2 } (wordAt s.memory s.pc) := by
  simp only [decode_and_execute, fetch_ok s hpc]

/-- Dispatch of a call `2NNN`. -/
theorem execute_call (h : Host) (s : State) (t : Nat) (ht : t < 4096) :
    execute h s (0x2000 + t) = op_2NNN s t := by
  have e0 : 0x2000 + t ≠ 0x00E0 := by omega
  have e1 : (0x2000 + t) &&& 0xF000 = 0x2000 := by rw [and_0xF000]; omega
  have e2 : (0x2000 + t) &&& 0x0FFF = t := by rw [and_0xFFF]; omega
  simp only [execute, dispatch, e0, e1, e2]
  simp

/-! ## Instructions other than call and return keep `sp` -/

theorem write_sp (s : State) (a v : Nat) : (write s a v).2.sp = s.sp := by
  unfold write; split_ifs <;> rfl

theorem op_8XYN_sp (s : State) (X Y N : Nat) : (op_8XYN s X Y N).sp = s.sp := by
  unfold op_8XYN
  split_ifs <;> rfl

theorem op_DXYN_sp (s s' : State) (X Y N : Nat) (h : op_DXYN s X Y N = .ok s') :
    s'.sp = s.sp :=
  (op_DXYN_spec s s' X Y N h).1.sp

theorem op_EXNN_sp (s s' : State) (X NN : Nat) (h : op_EXNN s X NN = .ok s') :
    s'.sp = s.sp := by
  unfold op_EXNN at h
  split_ifs at h <;> (have e := Except.ok.inj h; subst e; rfl)

theorem op_FX0A_loop_sp (h : Host) (X : Nat) : ∀ (n k : Nat) (w : Bool) (p : Int) (s : State),
    (op_FX0A_loop h X n k w p s).2.sp = s.sp := by
  intro n
  induction n with
  | zero => intro k w p s; rfl
  | succ n ih =>
    intro k w p s
    simp only [op_FX0A_loop]
    split_ifs <;> first | exact ih _ _ _ _ | rfl

theorem op_FX33_loop_sp : ∀ (n r : Nat) (s s' : State),
    op_FX33_loop n r s = .ok s' → s'.sp = s.sp := by
  intro n
  induction n with
  | zero => intro r s s' h; have e := Except.ok.inj h; subst e; rfl
  | succ n ih =>
    intro r s s' h
    simp only [op_FX33_loop] at h
    split_ifs at h
    have hh := ih _ _ _ h
    exact hh

theorem op_FX55_modify_sp : ∀ (n j : Nat) (s : State), (op_FX55_modify n j s).sp = s.sp := by
  intro n
  induction n with
  | zero => intro j s; rfl
  | succ n ih =>
    intro j s
    simp only [op_FX55_modify]
    rw [ih]
    exact write_sp s _ _

theorem op_FX55_keep_sp : ∀ (n j : Nat) (s : State), (op_FX55_keep n j s).sp = s.sp := by
  intro n
  induction n with
  | zero => intro j s; rfl
  | succ n ih =>
    intro j s
    simp only [op_FX55_keep]
    rw [ih]
    exact write_sp s _ _

theorem op_FX65_modify_sp : ∀ (n j : Nat) (s s' : State),
    op_FX65_modify n j s = .ok s' → s'.sp = s.sp := by
  intro n
  induction n with
  | zero => intro j s s' h; have e := Except.ok.inj h; subst e; rfl
  | succ n ih =>
    intro j s s' h
    simp only [op_FX65_modify] at h
    split_ifs at h
    have hh := ih _ _ _ h
    exact hh

theorem op_FX65_keep_sp : ∀ (n j : Nat) (s s' : State),
    op_FX65_keep n j s = .ok s' → s'.sp = s.sp := by
  intro n
  induction n with
  | zero => intro j s s' h; have e := Except.ok.inj h; subst e; rfl
  | succ n ih =>
    intro j s s' h
    simp only [op_FX65_keep] at h
    split_ifs at h
    have hh := ih _ _ _ h
    exact hh

theorem op_FXNN_sp (h : Host) (s s' : State) (X NN : Nat) (e : op_FXNN h s X NN = .ok s') :
    s'.sp = s.sp := by
  unfold op_FXNN at e
  split_ifs at e
  · have e := Except.ok.inj e; subst e; rfl
  · have e := Except.ok.inj e; subst e; rfl
  · have e := Except.ok.inj e; subst e; rfl
  · have e := Except.ok.inj e; subst e
    unfold op_FX1E; simp only []; split_ifs <;> rfl
  · have e := Except.ok.inj e; subst e
    unfold op_FX0A; simp only []
    split_ifs
    · exact op_FX0A_loop_sp h X _ _ _ _ s
    · exact op_FX0A_loop_sp h X _ _ _ _ s
  · have e := Except.ok.inj e; subst e; rfl
  · exact op_FX33_loop_sp _ _ _ _ e
  · have e := Except.ok.inj e; subst e
    unfold op_FX55
    split_ifs
    · exact op_FX55_modify_sp _ _ _
    · exact op_FX55_keep_sp _ _ _
  · unfold op_FX65 at e
    split_ifs at e
    · exact op_FX65_modify_sp _ _ _ _ e
    · exact op_FX65_keep_sp _ _ _ _ e
  · have e := Except.ok.inj e; subst e; rfl

/-- One instruction keeps the stack size within the capacity. -/
theorem dispatch_sp_le (h : Host) (s s' : State) (opcode g X Y N NN NNN : Nat)
    (e : dispatch h s opcode g X Y N NN NNN = .ok s') (hsp : s.sp ≤ STACK_SIZE) :
    s'.sp ≤ STACK_SIZE := by
  unfold dispatch at e
  by_cases c0 : opcode = 0x00E0
  · rw [if_pos c0] at e
    have e := Except.ok.inj e; subst e; exact hsp
  rw [if_neg c0] at e
  by_cases c1 : g = 0x1000
  · rw [if_pos c1] at e
    have e := Except.ok.inj e; subst e; exact hsp
  rw [if_neg c1] at e
  by_cases c2 : g = 0x2000
  · rw [if_pos c2] at e
    unfold op_2NNN stack_push at e
    split_ifs at e
    have e := Except.ok.inj e; subst e
    show u8 (s.sp + 1) ≤ STACK_SIZE
    unfold u8; unfold STACK_SIZE at *; omega
  rw [if_neg c2] at e
  by_cases c3 : g = 0x0000
  · rw [if_pos c3] at e
    unfold op_00EE stack_pop at e
    split_ifs at e
    have e := Except.ok.inj e; subst e
    show u8 (s.sp - 1) ≤ STACK_SIZE
    unfold u8; unfold STACK_SIZE at *; omega
  rw [if_neg c3] at e
  by_cases c4 : g = 0x3000
  · rw [if_pos c4] at e
    have e := Except.ok.inj e; subst e; split_ifs <;> exact hsp
  rw [if_neg c4] at e
  by_cases c5 : g = 0x4000
  · rw [if_pos c5] at e
    have e := Except.ok.inj e; subst e; split_ifs <;> exact hsp
  rw [if_neg c5] at e
  by_cases c6 : g = 0x5000
  · rw [if_pos c6] at e
    have e := Except.ok.inj e; subst e; split_ifs <;> exact hsp
  rw [if_neg c6] at e
  by_cases c7 : g = 0x9000
  · rw [if_pos c7] at e
    have e := Except.ok.inj e; subst e; split_ifs <;> exact hsp
  rw [if_neg c7] at e
  by_cases c8 : g = 0x6000
  · rw [if_pos c8] at e
    have e := Except.ok.inj e; subst e; exact hsp
  rw [if_neg c8] at e
  by_cases c9 : g = 0x7000
  · rw [if_pos c9] at e
    have e := Except.ok.inj e; subst e; exact hsp
  rw [if_neg c9] at e
  by_cases c10 : g = 0x8000
  · rw [if_pos c10] at e
    have e := Except.ok.inj e; subst e; rw [op_8XYN_sp]; exact hsp
  rw [if_neg c10] at e
  by_cases c11 : g = 0xA000
  · rw [if_pos c11] at e
    have e := Except.ok.inj e; subst e; exact hsp
  rw [if_neg c11] at e
  by_cases c12 : g = 0xB000
  · rw [if_pos c12] at e
    have e := Except.ok.inj e; subst e
    unfold op_BNNN; split_ifs <;> exact hsp
  rw [if_neg c12] at e
  by_cases c13 : g = 0xC000
  · rw [if_pos c13] at e
    have e := Except.ok.inj e; subst e; exact hsp
  rw [if_neg c13] at e
  by_cases c14 : g = 0xD000
  · rw [if_pos c14] at e
    rw [op_DXYN_sp s s' _ _ _ e]; exact hsp
  rw [if_neg c14] at e
  by_cases c15 : g = 0xE000
  · rw [if_pos c15] at e
    rw [op_EXNN_sp s s' _ _ e]; exact hsp
  rw [if_neg c15] at e
  by_cases c16 : g = 0xF000
  · rw [if_pos c16] at e
    rw [op_FXNN_sp h s s' _ _ e]; exact hsp
  rw [if_neg c16] at e
  have e := Except.ok.inj e; subst e; exact hsp

theorem execute_sp_le (h : Host) (s s' : State) (opcode : Nat)
    (e : execute h s opcode = .ok s') (hsp : s.sp ≤ STACK_SIZE) : s'.sp ≤ STACK_SIZE :=
  dispatch_sp_le h s s' _ _ _ _ _ _ _ e hsp

theorem decode_and_execute_sp_le (h : Host) (s s' : State)
    (e : decode_and_execute h s = .ok s') (hsp : s.sp ≤ STACK_SIZE) : s'.sp ≤ STACK_SIZE := by
  by_cases hpc : s.pc + 1 < MEMORY_SIZE
  · rw [decode_and_execute_eq h s hpc] at e
    exact execute_sp_le h _ s' _ e hsp
  · have h1 : s.pc + 1 ≥ MEMORY_SIZE := by omega
    simp [decode_and_execute, fetch, h1] at e

theorem run_sp_le : ∀ (hs : List Host) (s s' : State),
    run hs s = .ok s' → s.sp ≤ STACK_SIZE → s'.sp ≤ STACK_SIZE := by
  intro hs
  induction hs with
  | nil => intro s s' e hsp; have e := Except.ok.inj e; subst e; exact hsp
  | cons h hs ih =>
    intro s s' e hsp
    simp only [run] at e
    cases hstep : decode_and_execute h s with
    | error f => rw [hstep] at e; exact absurd e (by simp)
    | ok s1 =>
      rw [hstep] at e
      exact ih s1 s' e (decode_and_execute_sp_le h s s1 hstep hsp)

/-! ## The call stack (C7) -/

theorem call_step (h : Host) (s : State) (t : Nat) (hpc : s.pc + 1 < MEMORY_SIZE)
    (ht : t < 4096) (hw : wordAt s.memory s.pc = 0x2000 + t) :
    decode_and_execute h s =
      if s.sp ≥ STACK_SIZE then .error .stackOverflow
      else .ok { s with stack := set s.stack s.sp (u16 (s.pc + 2)), sp := u8 (s.sp + 1),
                        pc := u16 t } := by
  rw [decode_and_execute_eq h s hpc, hw, execute_call h _ t ht]
  unfold op_2NNN stack_push
  split_ifs <;> rfl

theorem CallChain_initial (m : Nat → Nat) : ∀ (ts us : List Nat) (pc : Nat),
    CallChain m pc (ts ++ us) → CallChain m pc ts := by
  intro ts
  induction ts with
  | nil => intro us pc _; trivial
  | cons t ts ih =>
    intro us pc hc
    obtain ⟨h1, h2, h3, h4⟩ := hc
    exact ⟨h1, h2, h3, ih us t h4⟩

theorem CallChain_self (m : Nat → Nat) (pc : Nat) (hpc : pc + 1 < MEMORY_SIZE)
    (hw : wordAt m pc = 0x2000 + pc) : ∀ n : Nat, CallChain m pc (List.replicate n pc) := by
  intro n
  induction n with
  | zero => trivial
  | succ n ih => exact ⟨hpc, by unfold MEMORY_SIZE at hpc; omega, hw, ih⟩

theorem run_calls : ∀ (ts : List Nat) (hs : List Host) (s : State),
    hs.length = ts.length → CallChain s.memory s.pc ts → s.sp ≤ STACK_SIZE →
    (s.sp + ts.length ≤ STACK_SIZE → ∃ s', run hs s = .ok s' ∧ s'.sp = s.sp + ts.length) ∧
    (s.sp + ts.length > STACK_SIZE → run hs s = .error .stackOverflow) := by
  intro ts
  induction ts with
  | nil =>
    intro hs s hl _ hsp
    have : hs = [] := List.length_eq_zero.mp hl
    subst this
    exact ⟨fun _ => ⟨s, rfl, rfl⟩, fun hgt => by simp at hgt; omega⟩
  | cons t ts ih =>
    intro hs s hl hc hsp
    obtain ⟨h1, h2, h3, h4⟩ := hc
    cases hs with
    | nil => simp at hl
    | cons h hs =>
      have hl1 : hs.length = ts.length := by simpa using hl
      have hstep := call_step h s t h1 h2 h3
      by_cases hfull : s.sp ≥ STACK_SIZE
      · rw [if_pos hfull] at hstep
        constructor
        · intro hle; simp at hle; omega
        · intro _; simp only [run, hstep]
      · rw [if_neg hfull] at hstep
        have hu : u8 (s.sp + 1) = s.sp + 1 := by
          unfold u8; unfold STACK_SIZE at hfull; omega
        have hu16 : u16 t = t := by unfold u16; omega
        rw [hu, hu16] at hstep
        obtain ⟨ih1, ih2⟩ := ih hs
          { s with stack := set s.stack s.sp (u16 (s.pc + 2)), sp := s.sp + 1, pc := t } hl1 h4
          (by show s.sp + 1 ≤ STACK_SIZE; omega)
        constructor
        · intro hle
          obtain ⟨s', e, hs'⟩ := ih1 (by simp at hle ⊢; omega)
          refine ⟨s', by simp only [run, hstep]; exact e, ?_⟩
          rw [hs']; simp only [List.length_cons]; omega
        · intro hgt
          simp only [run, hstep]
          exact ih2 (by simp at hgt ⊢; omega)

/-- C7: the call stack holds exactly 16 return addresses.  From an empty stack, the
16 steps of a chain of nested calls 2NNN all succeed and leave sp = 16, and the run
that goes on with a 17th nested call ends in the stack-overflow fault; a return 00EE on
the empty stack ends in the stack-underflow fault; and from a stack size of at most 16
every run of non-faulting steps ends with a stack size of at most 16. -/
theorem stack_sixteen_calls :
    (∀ (hs : List Host) (h17 : Host) (ts : List Nat) (t17 : Nat) (s : State),
      s.sp = 0 → hs.length = 16 → ts.length = 16 →
      CallChain s.memory s.pc (ts ++ [t17]) →
      (∃ s', run hs s = .ok s' ∧ s'.sp = 16) ∧
        run (hs ++ [h17]) s = .error .stackOverflow) ∧
    (∀ (h : Host) (s : State), s.sp = 0 → s.pc + 1 < MEMORY_SIZE →
      wordAt s.memory s.pc = 0x00EE → decode_and_execute h s = .error .stackUnderflow) ∧
    (∀ (hs : List Host) (s s' : State), s.sp ≤ 16 → run hs s = .ok s' → s'.sp ≤ 16) := by
  refine ⟨?_, ?_, ?_⟩
  · intro hs h17 ts t17 s hsp hl1 hl2 hc
    have hsp16 : s.sp ≤ STACK_SIZE := by rw [hsp]; exact Nat.zero_le _
    constructor
    · obtain ⟨a, _⟩ := run_calls ts hs s (by rw [hl1, hl2])
        (CallChain_initial s.memory ts [t17] s.pc hc) hsp16
      obtain ⟨s', e, hs'⟩ := a (by rw [hsp, hl2]; decide)
      exact ⟨s', e, by rw [hs', hsp, hl2]⟩
    · obtain ⟨_, b⟩ := run_calls (ts ++ [t17]) (hs ++ [h17]) s (by simp [hl1, hl2]) hc hsp16
      exact b (by rw [hsp]; simp [hl2]; decide)
  · intro h s hsp hpc hw
    rw [decode_and_execute_eq h s hpc, hw]
    have m : (0x00EE : Nat) &&& 0xF000 = 0 := by decide
    have e : execute h { s with pc := s.pc + 2 } 0x00EE = op_00EE { s with pc := s.pc + 2 } := by
      simp [execute, dispatch, m]
    rw [e]
    simp [op_00EE, stack_pop, hsp]
  · intro hs s s' hsp e
    exact run_sp_le hs s s' e hsp

/-- Witness of `stack_sixteen_calls`: the program `22 00` (a call to itself) on the
initial state, and the program `00 EE` on the initial state. -/
theorem stack_sixteen_calls_witness :
    (∃ s', run (List.replicate 16 host0) (with_program chip8_init 0x22 0x00) = .ok s' ∧
      s'.sp = 16 ∧ s'.sp ≤ 16) ∧
    run (List.replicate 16 host0 ++ [host0]) (with_program chip8_init 0x22 0x00) =
      .error .stackOverflow ∧
    decode_and_execute host0 (with_program chip8_init 0x00 0xEE) = .error .stackUnderflow := by
  obtain ⟨hA, hB, hC⟩ := stack_sixteen_calls
  have hchain := CallChain_self (with_program chip8_init 0x22 0x00).memory 0x200 (by decide)
    (by decide) 17
  obtain ⟨⟨s', e, hsp⟩, hover⟩ := hA (List.replicate 16 host0) host0 (List.replicate 16 0x200)
    0x200 (with_program chip8_init 0x22 0x00) rfl rfl rfl hchain
  exact ⟨⟨s', e, hsp, hC _ _ s' (by decide) e⟩, hover,
    hB host0 (with_program chip8_init 0x00 0xEE) rfl (by decide) (by decide)⟩


/-! ## Opcodes without a case (C8) -/

/-- C8 (as amended): for every state and every opcode in one of the three groups with
an inner switch whose sub-code has no case there (8XYN with N in 8..D or F, EXNN with NN
other than 9E and A1, FXNN with NN other than 07, 0A, 15, 18, 1E, 29, 33, 55, 65), a
step does not fault and changes nothing except PC, which advances by 2. -/
theorem undefined_subcode_is_noop (h : Host) (s : State) (opcode : Nat)
    (hpc : s.pc + 1 < MEMORY_SIZE) (hop : wordAt s.memory s.pc = opcode)
    (hu : UndefinedInGroup opcode) :
    decode_and_execute h s = .ok { s with pc := s.pc + 2 } := by
  rw [decode_and_execute_eq h s hpc, hop]
  unfold execute
  rw [and_0xF000, and_0xF, and_0xFF]
  have hE0 : opcode ≠ 0x00E0 := by
    rintro rfl
    rcases hu with ⟨h1, _⟩ | ⟨h1, _⟩ | ⟨h1, _⟩ <;> exact absurd h1 (by decide)
  rcases hu with ⟨h1, h2⟩ | ⟨h1, h2⟩ | ⟨h1, h2⟩
  · rw [h1]
    simp only [dispatch, if_neg hE0]
    simp only [List.mem_cons, List.mem_singleton, List.not_mem_nil, or_false] at h2
    rcases h2 with h2 | h2 | h2 | h2 | h2 | h2 | h2 <;> rw [h2] <;> simp [op_8XYN]
  · rw [h1]
    simp only [dispatch, if_neg hE0]
    simp only [List.mem_cons, List.mem_singleton, List.not_mem_nil, or_false, not_or] at h2
    simp [op_EXNN, h2.1, h2.2]
  · rw [h1]
    simp only [dispatch, if_neg hE0]
    simp only [List.mem_cons, List.mem_singleton, List.not_mem_nil, or_false, not_or] at h2
    obtain ⟨a1, a2, a3, a4, a5, a6, a7, a8, a9⟩ := h2
    simp [op_FXNN, a1, a2, a3, a4, a5, a6, a7, a8, a9]

/-- Witness of `undefined_subcode_is_noop`: the opcode 0x8128 at 0x200. -/
theorem undefined_subcode_is_noop_witness :
    (with_program chip8_init 0x81 0x28).pc + 1 < MEMORY_SIZE ∧
    wordAt (with_program chip8_init 0x81 0x28).memory (with_program chip8_init 0x81 0x28).pc =
      0x8128 ∧
    UndefinedInGroup 0x8128 ∧
    decode_and_execute host0 (with_program chip8_init 0x81 0x28) =
      .ok { with_program chip8_init 0x81 0x28 with
            pc := (with_program chip8_init 0x81 0x28).pc + 2 } :=
  ⟨by decide, by decide, by unfold UndefinedInGroup; decide,
    undefined_subcode_is_noop host0 (with_program chip8_init 0x81 0x28) 0x8128 (by decide)
      (by decide) (by unfold UndefinedInGroup; decide)⟩

/-- C8 as stated fails outside the three groups with an inner switch: the opcode
0x0000 (fetched from the zeroed memory of the initial state) takes the return path and
faults on the empty stack, and 0x5121 and 0x9011 take the skip paths of 5XY0 and 9XY0
and advance PC by 4. -/
theorem undefined_opcode_counterexample :
    (wordAt chip8_init.memory chip8_init.pc = 0x0000 ∧
      decode_and_execute host0 chip8_init = .error .stackUnderflow) ∧
    (wordAt (with_program chip8_init 0x51 0x21).memory 0x200 = 0x5121 ∧
      ∃ s', decode_and_execute host0 (with_program chip8_init 0x51 0x21) = .ok s' ∧
        s'.pc = 0x200 + 4) ∧
    (wordAt (with_program regs_example 0x90 0x11).memory 0x200 = 0x9011 ∧
      ∃ s', decode_and_execute host0 (with_program regs_example 0x90 0x11) = .ok s' ∧
        s'.pc = 0x200 + 4) :=
  ⟨⟨by decide, rfl⟩, ⟨by decide, _, rfl, rfl⟩, ⟨by decide, _, rfl, rfl⟩⟩

/-! ## Block write (C9) -/

/-- The guard of `write_block` as it is written: the block is accepted exactly when
it ends before the last byte of the store. -/
theorem write_block_accepts_iff (s : State) (start : Nat) (data : List Nat) :
    (write_block s start data).1 = true ↔ start + data.length < MEMORY_SIZE := by
  unfold write_block
  split_ifs with hc
  · simp only [Bool.false_eq_true, false_iff]; omega
  · simp only [true_iff]; omega

/-- C9, the code at the failing input: a one-byte block at address 4095 lies within
the 4096-byte store, and `write_block` reports failure and leaves memory[4095] as it
was. -/
theorem write_block_rejects_last_byte :
    4095 + [0xAB].length ≤ MEMORY_SIZE ∧
    (write_block chip8_init 4095 [0xAB]).1 = false ∧
    (write_block chip8_init 4095 [0xAB]).2.memory 4095 = chip8_init.memory 4095 :=
  ⟨by decide, rfl, rfl⟩

/-! ## Fetch (C10) -/

theorem word_big_endian (a b : Nat) (ha : a < 256) (hb : b < 256) :
    u16 ((a <<< 8) ||| b) = a * 256 + b := by
  have h := Nat.mul_add_lt_is_or (show b < 2 ^ 8 from hb) a
  rw [Nat.shiftLeft_eq, Nat.mul_comm a (2 ^ 8), ← h]
  unfold u16
  omega

/-- C10: fetch faults (PC out of bounds) exactly when PC + 1 >= 4096; for every other
PC of a well-formed state it returns the big-endian word
memory[PC] * 256 + memory[PC + 1], sets PC to PC + 2 and changes nothing else. -/
theorem fetch_spec (s : State) (hs : WF s) :
    ((∃ f, fetch s = .error f) ↔ s.pc + 1 ≥ MEMORY_SIZE) ∧
    (s.pc + 1 ≥ MEMORY_SIZE → fetch s = .error .pcOutOfBounds) ∧
    (s.pc + 1 < MEMORY_SIZE →
      fetch s = .ok (s.memory s.pc * 256 + s.memory (s.pc + 1), { s with pc := s.pc + 2 })) := by
  have hok : s.pc + 1 < MEMORY_SIZE →
      fetch s = .ok (s.memory s.pc * 256 + s.memory (s.pc + 1), { s with pc := s.pc + 2 }) := by
    intro hpc
    rw [fetch_ok s hpc, wordAt, word_big_endian _ _ (hs.memory_u8 _) (hs.memory_u8 _)]
  have herr : s.pc + 1 ≥ MEMORY_SIZE → fetch s = .error .pcOutOfBounds := by
    intro hpc
    simp only [fetch, if_pos hpc]
  refine ⟨⟨?_, fun hpc => ⟨_, herr hpc⟩⟩, herr, hok⟩
  rintro ⟨f, hf⟩
  by_contra hlt
  rw [hok (by omega)] at hf
  exact absurd hf (by simp)

theorem WF_with_program (s : State) (hi lo : Nat) (hs : WF s) (hhi : hi < 256)
    (hlo : lo < 256) : WF (with_program s hi lo) := by
  refine ⟨?_, hs.V_u8, hs.I_u16, hs.pc_u16, hs.stack_u16, hs.sp_u8, hs.delay_u8,
    hs.sound_u8, hs.keypad_u8⟩
  intro a
  have := hs.memory_u8 a
  simp only [with_program]
  split_ifs <;> assumption

/-- Witness of `fetch_spec`: the word 0x1234 at 0x200 of the initial state. -/
theorem fetch_spec_witness :
    WF (with_program chip8_init 0x12 0x34) ∧
    (with_program chip8_init 0x12 0x34).pc + 1 < MEMORY_SIZE ∧
    fetch (with_program chip8_init 0x12 0x34) =
      .ok ((with_program chip8_init 0x12 0x34).memory (with_program chip8_init 0x12 0x34).pc
            * 256 +
          (with_program chip8_init 0x12 0x34).memory
            ((with_program chip8_init 0x12 0x34).pc + 1),
        { with_program chip8_init 0x12 0x34 with
          pc := (with_program chip8_init 0x12 0x34).pc + 2 }) :=
  ⟨WF_with_program _ _ _ WF_init (by decide) (by decide), by decide,
    (fetch_spec (with_program chip8_init 0x12 0x34)
      (WF_with_program _ _ _ WF_init (by decide) (by decide))).2.2 (by decide)⟩

/-! ## The blocking key wait (C11) -/

/-- Dispatch of the `0xF000` group. -/
theorem execute_mkF (h : Host) (s : State) (X Y N : Nat) (hX : X < 16) (hY : Y < 16)
    (hN : N < 16) : execute h s (mkOpcode 0xF X Y N) = op_FXNN h s X (Y * 16 + N) := by
  have e0 : mkOpcode 0xF X Y N ≠ 0x00E0 := by unfold mkOpcode; omega
  have e1 : mkOpcode 0xF X Y N &&& 0xF000 = 0xF000 := by
    rw [and_0xF000]; unfold mkOpcode; omega
  have e2 : (mkOpcode 0xF X Y N &&& 0x0F00) >>> 8 = X := by
    rw [and_0x0F00_shift]; unfold mkOpcode; omega
  have e3 : mkOpcode 0xF X Y N &&& 0x00FF = Y * 16 + N := by
    rw [and_0xFF]; unfold mkOpcode; omega
  simp only [execute, dispatch, e0, e1, e2, e3]
  simp

theorem op_FX0A_loop_waiting (h : Host) (X : Nat) : ∀ (n k : Nat) (p : Int) (s : State),
    p < (k : Int) → op_FX0A_loop h X n k true p s = (false, s) := by
  intro n
  induction n with
  | zero => intro k p s _; rfl
  | succ n ih =>
    intro k p s hp
    have hne : ¬ ((k : Int) = p ∧ h.IsKeyReleased (s.keypad k) = true) := by
      rintro ⟨e, _⟩; omega
    simp only [op_FX0A_loop, Bool.not_true, Bool.false_eq_true, if_false, if_neg hne]
    exact ih (k + 1) p s (by push_cast; omega)

theorem op_FX0A_loop_idle (h : Host) (X : Nat) : ∀ (n k : Nat) (p : Int) (s : State),
    op_FX0A_loop h X n k false p s = (false, s) := by
  intro n
  induction n with
  | zero => intro k p s; rfl
  | succ n ih =>
    intro k p s
    simp only [op_FX0A_loop, Bool.not_false, if_true]
    split_ifs
    · exact op_FX0A_loop_waiting h X n (k + 1) (k : Int) s (by push_cast; omega)
    · exact ih (k + 1) p s

theorem op_FX0A_eq (h : Host) (s : State) (X : Nat) :
    op_FX0A h s X = { s with pc := u16sub s.pc 2 } := by
  simp only [op_FX0A, op_FX0A_loop_idle]
  rfl


theorem key_wait_step (h : Host) (s : State) (X : Nat) (hX : X < 16)
    (hpc : s.pc + 1 < MEMORY_SIZE) (hw : wordAt s.memory s.pc = mkOpcode 0xF X 0 0xA) :
    decode_and_execute h s = .ok s := by
  rw [decode_and_execute_eq h s hpc, hw, execute_mkF h _ X 0 0xA hX (by decide) (by decide)]
  have e : op_FXNN h { s with pc := s.pc + 2 } X (0 * 16 + 0xA) =
      .ok (op_FX0A h { s with pc := s.pc + 2 } X) := by
    simp [op_FXNN]
  rw [e, op_FX0A_eq]
  have hp : u16sub (s.pc + 2) 2 = s.pc := by
    unfold u16sub; unfold MEMORY_SIZE at hpc; omega
  simp only [hp]

/-- C11, what the code does: for every state whose PC points at an instruction FX0A
and for every sequence of host inputs, each step returns the state it started from, so
PC stays at the FX0A instruction and VX is unchanged after any number of steps.  No key
input makes the instruction complete: the per-call flags start afresh at every step,
and a key found pressed at index k is only compared with later indices of the same
loop. -/
theorem key_wait_never_completes (hs : List Host) (s : State) (X : Nat) (hX : X < 16)
    (hpc : s.pc + 1 < MEMORY_SIZE) (hw : wordAt s.memory s.pc = mkOpcode 0xF X 0 0xA) :
    (∀ h : Host, decode_and_execute h s = .ok s) ∧ run hs s = .ok s := by
  refine ⟨fun h => key_wait_step h s X hX hpc hw, ?_⟩
  induction hs with
  | nil => rfl
  | cons h hs ih => simp only [run, key_wait_step h s X hX hpc hw, ih]

/-- Witness of `key_wait_never_completes`, the failing input of C11: on two steps in
which every key reports a press and a release, the instruction F00A at 0x200 still
does not complete. -/
theorem key_wait_never_completes_witness :
    (with_program chip8_init 0xF0 0x0A).pc + 1 < MEMORY_SIZE ∧
    wordAt (with_program chip8_init 0xF0 0x0A).memory (with_program chip8_init 0xF0 0x0A).pc =
      mkOpcode 0xF 0 0 0xA ∧
    (∀ h : Host, decode_and_execute h (with_program chip8_init 0xF0 0x0A) =
      .ok (with_program chip8_init 0xF0 0x0A)) ∧
    run [host_all, host_all] (with_program chip8_init 0xF0 0x0A) =
      .ok (with_program chip8_init 0xF0 0x0A) :=
  ⟨by decide, by decide,
    key_wait_never_completes [host_all, host_all] (with_program chip8_init 0xF0 0x0A) 0
      (by decide) (by decide) (by decide)⟩

/-! ## Add to index (C12) -/

/-- C12 (as amended): for every state and every register X in 0..15, FX1E succeeds,
sets I to (I + VX) mod 65536 and sets VF to 1 exactly when that stored sum exceeds
0x0FFF; whenever I + VX fits in 16 bits, I is the sum I + VX and VF is 1 exactly when
I + VX > 0x0FFF. -/
theorem add_to_index_FX1E (h : Host) (s : State) (X : Nat) (hX : X < 16) :
    ∃ s', execute h s (mkOpcode 0xF X 1 0xE) = .ok s' ∧
      s'.I = (s.I + s.V X) % 65536 ∧
      s'.V 0xF = (if (s.I + s.V X) % 65536 > 0x0FFF then 1 else 0) ∧
      (s.I + s.V X < 65536 →
        s'.I = s.I + s.V X ∧ s'.V 0xF = (if s.I + s.V X > 0x0FFF then 1 else 0)) := by
  have e : execute h s (mkOpcode 0xF X 1 0xE) = .ok (op_FX1E s X) := by
    rw [execute_mkF h s X 1 0xE hX (by decide) (by decide)]
    simp [op_FXNN]
  have hI : (op_FX1E s X).I = (s.I + s.V X) % 65536 := by
    simp only [op_FX1E, u16]
  have hF : (op_FX1E s X).V 0xF = (if (s.I + s.V X) % 65536 > 0x0FFF then 1 else 0) := by
    simp only [op_FX1E, u16]
    split_ifs <;> simp [setV, u8]
  refine ⟨_, e, hI, hF, ?_⟩
  intro hlt
  rw [hI, hF, Nat.mod_eq_of_lt hlt]
  exact ⟨rfl, rfl⟩

/-- Witness of `add_to_index_FX1E`: I = 0 and V1 = 250 on the example registers. -/
theorem add_to_index_FX1E_witness :
    regs_example.I + regs_example.V 1 < 65536 ∧
    ∃ s', execute host0 regs_example (mkOpcode 0xF 1 1 0xE) = .ok s' ∧
      s'.I = regs_example.I + regs_example.V 1 ∧
      s'.V 0xF = (if regs_example.I + regs_example.V 1 > 0x0FFF then 1 else 0) := by
  obtain ⟨s', e, _, _, hfit⟩ :=
    add_to_index_FX1E host0 regs_example 1 (by decide)
  exact ⟨by decide, s', e, hfit (by decide)⟩

/-- C12 as stated fails when the sum leaves the 16-bit range: with I = 0xFFFF and
V0 = 3 the instruction F01E ends with I = 2 and VF = 0, although I + V0 = 65538 exceeds
0x0FFF. -/
theorem add_to_index_wrap_counterexample :
    ∃ s', execute host0 { regs_example with I := 0xFFFF } (mkOpcode 0xF 0 1 0xE) = .ok s' ∧
      s'.I = 2 ∧ s'.V 0xF = 0 ∧
      ({ regs_example with I := 0xFFFF } : State).I + regs_example.V 0 = 65538 :=
  ⟨_, (execute_mkF host0 _ 0 1 0xE (by decide) (by decide) (by decide)).trans rfl,
    by decide, by decide, by decide⟩

/-! ## Block store and load (C13) -/

theorem write_ok (s : State) (a v : Nat) (ha : a < MEMORY_SIZE) :
    (write s a v).2 = { s with memory := set s.memory a (u8 v) } := by
  have h1 : u16 a = a := by unfold u16; unfold MEMORY_SIZE at ha; omega
  have h2 : ¬ a ≥ MEMORY_SIZE := by omega
  simp only [write, h1, if_neg h2]

theorem op_FX55_keep_eq : ∀ (n j : Nat) (s : State), s.I + j + n ≤ MEMORY_SIZE →
    op_FX55_keep n j s =
      { s with memory := fun a =>
          if s.I + j ≤ a ∧ a < s.I + j + n then u8 (s.V (a - s.I)) else s.memory a } := by
  intro n
  induction n with
  | zero =>
    intro j s _
    show s = _
    have : (fun a => if s.I + j ≤ a ∧ a < s.I + j + 0 then u8 (s.V (a - s.I)) else s.memory a)
        = s.memory := by
      funext a; rw [if_neg (by omega)]
    rw [this]
  | succ n ih =>
    intro j s hb
    simp only [op_FX55_keep]
    rw [write_ok s (s.I + j) (s.V j) (by omega), ih (j + 1) _ (by show s.I + (j + 1) + n ≤ _; omega)]
    show State.mk _ _ _ _ _ _ _ _ _ _ _ _ _ = State.mk _ _ _ _ _ _ _ _ _ _ _ _ _
    congr 1
    funext a
    show (if s.I + (j + 1) ≤ a ∧ a < s.I + (j + 1) + n then u8 (s.V (a - s.I))
      else set s.memory (s.I + j) (u8 (s.V j)) a) = _
    rw [set_apply]
    by_cases h1 : a = s.I + j
    · subst h1
      have : s.I + j - s.I = j := by omega
      rw [if_neg (by omega), if_pos rfl, if_pos (by omega), this]
    · rw [if_neg h1]
      by_cases h2 : s.I + (j + 1) ≤ a ∧ a < s.I + (j + 1) + n
      · rw [if_pos h2, if_pos (by omega)]
      · rw [if_neg h2, if_neg (by omega)]

theorem op_FX55_modify_eq : ∀ (n j : Nat) (s : State), s.I + n ≤ MEMORY_SIZE →
    op_FX55_modify n j s =
      { s with
        memory := fun a =>
          if s.I ≤ a ∧ a < s.I + n then u8 (s.V (j + (a - s.I))) else s.memory a
        I := s.I + n } := by
  intro n
  induction n with
  | zero =>
    intro j s _
    show s = _
    have : (fun a => if s.I ≤ a ∧ a < s.I + 0 then u8 (s.V (j + (a - s.I))) else s.memory a)
        = s.memory := by
      funext a; rw [if_neg (by omega)]
    rw [this]
    rfl
  | succ n ih =>
    intro j s hb
    have hu : u16 (s.I + 1) = s.I + 1 := by unfold u16; unfold MEMORY_SIZE at hb; omega
    simp only [op_FX55_modify]
    rw [write_ok s s.I (s.V j) (by omega)]
    simp only [hu]
    rw [ih (j + 1) _ (by show s.I + 1 + n ≤ _; omega)]
    show State.mk _ _ _ _ _ _ _ _ _ _ _ _ _ = State.mk _ _ _ _ _ _ _ _ _ _ _ _ _
    congr 1
    · funext a
      show (if s.I + 1 ≤ a ∧ a < s.I + 1 + n then u8 (s.V (j + 1 + (a - (s.I + 1))))
        else set s.memory s.I (u8 (s.V j)) a) = _
      rw [set_apply]
      by_cases h1 : a = s.I
      · subst h1
        have : j + (s.I - s.I) = j := by omega
        rw [if_neg (by omega), if_pos rfl, if_pos (by omega), this]
      · rw [if_neg h1]
        by_cases h2 : s.I + 1 ≤ a ∧ a < s.I + 1 + n
        · have : j + 1 + (a - (s.I + 1)) = j + (a - s.I) := by omega
          rw [if_pos h2, if_pos (by omega), this]
        · rw [if_neg h2, if_neg (by omega)]
    · show s.I + 1 + n = s.I + (n + 1)
      omega

theorem op_FX65_keep_eq : ∀ (n j : Nat) (s : State), s.I + j + n ≤ MEMORY_SIZE →
    op_FX65_keep n j s =
      .ok { s with V := fun i =>
          if j ≤ i ∧ i < j + n then u8 (s.memory (s.I + i)) else s.V i } := by
  intro n
  induction n with
  | zero =>
    intro j s _
    show Except.ok s = _
    have : (fun i => if j ≤ i ∧ i < j + 0 then u8 (s.memory (s.I + i)) else s.V i) = s.V := by
      funext i; rw [if_neg (by omega)]
    rw [this]
  | succ n ih =>
    intro j s hb
    have hm : ¬ s.I + j ≥ MEMORY_SIZE := by omega
    simp only [op_FX65_keep, if_neg hm]
    rw [ih (j + 1) _ (by show s.I + (j + 1) + n ≤ _; omega)]
    congr 1
    show State.mk _ _ _ _ _ _ _ _ _ _ _ _ _ = State.mk _ _ _ _ _ _ _ _ _ _ _ _ _
    congr 1
    funext i
    show (if j + 1 ≤ i ∧ i < j + 1 + n then u8 (s.memory (s.I + i))
      else set s.V j (u8 (s.memory (s.I + j))) i) = _
    rw [set_apply]
    by_cases h1 : i = j
    · subst h1
      rw [if_neg (by omega), if_pos rfl, if_pos (by omega)]
    · rw [if_neg h1]
      by_cases h2 : j + 1 ≤ i ∧ i < j + 1 + n
      · rw [if_pos h2, if_pos (by omega)]
      · rw [if_neg h2, if_neg (by omega)]

theorem op_FX65_modify_eq : ∀ (n j : Nat) (s : State), s.I + n ≤ MEMORY_SIZE →
    op_FX65_modify n j s =
      .ok { s with
        V := fun i => if j ≤ i ∧ i < j + n then u8 (s.memory (s.I + (i - j))) else s.V i
        I := s.I + n } := by
  intro n
  induction n with
  | zero =>
    intro j s _
    show Except.ok s = _
    have : (fun i => if j ≤ i ∧ i < j + 0 then u8 (s.memory (s.I + (i - j))) else s.V i)
        = s.V := by
      funext i; rw [if_neg (by omega)]
    rw [this]
    rfl
  | succ n ih =>
    intro j s hb
    have hm : ¬ s.I ≥ MEMORY_SIZE := by omega
    have hu : u16 (s.I + 1) = s.I + 1 := by unfold u16; unfold MEMORY_SIZE at hb; omega
    simp only [op_FX65_modify, if_neg hm]
    have hu2 : u16 ((setV s j (s.memory s.I)).I + 1) = s.I + 1 := hu
    rw [hu2, ih (j + 1) _ (by show s.I + 1 + n ≤ _; omega)]
    congr 1
    show State.mk _ _ _ _ _ _ _ _ _ _ _ _ _ = State.mk _ _ _ _ _ _ _ _ _ _ _ _ _
    congr 1
    · funext i
      show (if j + 1 ≤ i ∧ i < j + 1 + n then u8 (s.memory (s.I + 1 + (i - (j + 1))))
        else set s.V j (u8 (s.memory s.I)) i) = _
      rw [set_apply]
      by_cases h1 : i = j
      · subst h1
        have : s.I + (i - i) = s.I := by omega
        rw [if_neg (by omega), if_pos rfl, if_pos (by omega), this]
      · rw [if_neg h1]
        by_cases h2 : j + 1 ≤ i ∧ i < j + 1 + n
        · have : s.I + 1 + (i - (j + 1)) = s.I + (i - j) := by omega
          rw [if_pos h2, if_pos (by omega), this]
        · rw [if_neg h2, if_neg (by omega)]
    · show s.I + 1 + n = s.I + (n + 1)
      omega

theorem store_FX55_eq (h : Host) (s : State) (X : Nat) (hX : X < 16)
    (hI : s.I + X < MEMORY_SIZE) :
    execute h s (mkOpcode 0xF X 5 5) =
      .ok { s with
        memory := fun a =>
          if s.I ≤ a ∧ a < s.I + (X + 1) then u8 (s.V (a - s.I)) else s.memory a
        I := if s.modify_I = true then s.I + (X + 1) else s.I } := by
  rw [execute_mkF h s X 5 5 hX (by decide) (by decide)]
  have e : op_FXNN h s X (5 * 16 + 5) = .ok (op_FX55 s X) := by simp [op_FXNN]
  rw [e]
  congr 1
  unfold op_FX55
  by_cases hm : s.modify_I = true
  · rw [if_pos hm, if_pos hm, op_FX55_modify_eq (X + 1) 0 s (by omega)]
    show State.mk _ _ _ _ _ _ _ _ _ _ _ _ _ = State.mk _ _ _ _ _ _ _ _ _ _ _ _ _
    congr 1
    funext a
    rw [Nat.zero_add]
  · rw [if_neg hm, if_neg hm, op_FX55_keep_eq (X + 1) 0 s (by omega)]
    rfl

theorem load_FX65_eq (h : Host) (s : State) (X : Nat) (hX : X < 16)
    (hI : s.I + X < MEMORY_SIZE) :
    execute h s (mkOpcode 0xF X 6 5) =
      .ok { s with
        V := fun i => if i < X + 1 then u8 (s.memory (s.I + i)) else s.V i
        I := if s.modify_I = true then s.I + (X + 1) else s.I } := by
  rw [execute_mkF h s X 6 5 hX (by decide) (by decide)]
  have e : op_FXNN h s X (6 * 16 + 5) = op_FX65 s X := by simp [op_FXNN]
  rw [e]
  unfold op_FX65
  by_cases hm : s.modify_I = true
  · rw [if_pos hm, if_pos hm, op_FX65_modify_eq (X + 1) 0 s (by omega)]
    congr 1
    show State.mk _ _ _ _ _ _ _ _ _ _ _ _ _ = State.mk _ _ _ _ _ _ _ _ _ _ _ _ _
    congr 1
    funext i
    by_cases hi : i < X + 1
    · rw [if_pos (by omega), if_pos hi]; rfl
    · rw [if_neg (by omega), if_neg hi]
  · rw [if_neg hm, if_neg hm, op_FX65_keep_eq (X + 1) 0 s (by omega)]
    congr 1
    show State.mk _ _ _ _ _ _ _ _ _ _ _ _ _ = State.mk _ _ _ _ _ _ _ _ _ _ _ _ _
    congr 1
    funext i
    by_cases hi : i < X + 1
    · rw [if_pos (by omega), if_pos hi]
    · rw [if_neg (by omega), if_neg hi]

/-- C13: for every well-formed state with I + X < 4096, FX55 succeeds, puts V0..VX at
memory[I0..I0 + X] and changes no other memory byte and no register, and FX65 succeeds,
sets Vj = memory[I0 + j] for every j <= X and changes no other register and no memory
byte; in both, I ends at I0 + X + 1 when modify_I is enabled and at I0 when it is
disabled, and the memory (for FX55) and the registers (for FX65) that result are the
same in the two modes. -/
theorem block_store_load (h : Host) (s : State) (X : Nat) (hX : X < 16) (hs : WF s)
    (hI : s.I + X < MEMORY_SIZE) :
    (∃ s', execute h s (mkOpcode 0xF X 5 5) = .ok s' ∧
      (∀ j, j ≤ X → s'.memory (s.I + j) = s.V j) ∧
      (∀ a, (a < s.I ∨ s.I + X < a) → s'.memory a = s.memory a) ∧
      s'.V = s.V ∧
      s'.I = (if s.modify_I = true then s.I + X + 1 else s.I)) ∧
    (∃ s', execute h s (mkOpcode 0xF X 6 5) = .ok s' ∧
      (∀ j, j ≤ X → s'.V j = s.memory (s.I + j)) ∧
      (∀ i, X < i → s'.V i = s.V i) ∧
      s'.memory = s.memory ∧
      s'.I = (if s.modify_I = true then s.I + X + 1 else s.I)) ∧
    (∃ s1 s2, execute h { s with modify_I := true } (mkOpcode 0xF X 5 5) = .ok s1 ∧
      execute h { s with modify_I := false } (mkOpcode 0xF X 5 5) = .ok s2 ∧
      s1.memory = s2.memory ∧ s1.V = s2.V ∧ s1.I = s.I + X + 1 ∧ s2.I = s.I) ∧
    (∃ s1 s2, execute h { s with modify_I := true } (mkOpcode 0xF X 6 5) = .ok s1 ∧
      execute h { s with modify_I := false } (mkOpcode 0xF X 6 5) = .ok s2 ∧
      s1.memory = s2.memory ∧ s1.V = s2.V ∧ s1.I = s.I + X + 1 ∧ s2.I = s.I) := by
  refine ⟨⟨_, store_FX55_eq h s X hX hI, ?_, ?_, rfl, rfl⟩,
    ⟨_, load_FX65_eq h s X hX hI, ?_, ?_, rfl, rfl⟩,
    ⟨_, _, store_FX55_eq h { s with modify_I := true } X hX hI,
      store_FX55_eq h { s with modify_I := false } X hX hI, rfl, rfl, rfl, rfl⟩,
    ⟨_, _, load_FX65_eq h { s with modify_I := true } X hX hI,
      load_FX65_eq h { s with modify_I := false } X hX hI, rfl, rfl, rfl, rfl⟩⟩
  · intro j hj
    have hv := hs.V_u8 j
    have e : s.I + j - s.I = j := by omega
    show (if s.I ≤ s.I + j ∧ s.I + j < s.I + (X + 1) then u8 (s.V (s.I + j - s.I))
      else s.memory (s.I + j)) = s.V j
    rw [if_pos (by omega), e]
    exact Nat.mod_eq_of_lt hv
  · intro a ha
    show (if s.I ≤ a ∧ a < s.I + (X + 1) then u8 (s.V (a - s.I)) else s.memory a) = s.memory a
    rw [if_neg (by omega)]
  · intro j hj
    have hm := hs.memory_u8 (s.I + j)
    show (if j < X + 1 then u8 (s.memory (s.I + j)) else s.V j) = s.memory (s.I + j)
    rw [if_pos (by omega)]
    exact Nat.mod_eq_of_lt hm
  · intro i hi
    show (if i < X + 1 then u8 (s.memory (s.I + i)) else s.V i) = s.V i
    rw [if_neg (by omega)]

/-- Witness of `block_store_load`: V0 and V1 of the example registers with I = 0x300. -/
theorem block_store_load_witness :
    WF { regs_example with I := 0x300 } ∧
    ({ regs_example with I := 0x300 } : State).I + 1 < MEMORY_SIZE ∧
    (∃ s', execute host0 { regs_example with I := 0x300 } (mkOpcode 0xF 1 5 5) = .ok s' ∧
      s'.memory 0x300 = 3 ∧ s'.memory 0x301 = 250 ∧ s'.I = 0x300) ∧
    (∃ s', execute host0 { regs_example with I := 0x300 } (mkOpcode 0xF 1 6 5) = .ok s' ∧
      s'.V 0 = 0 ∧ s'.V 1 = 0 ∧ s'.V 0xF = 5) := by
  have hw : WF { regs_example with I := 0x300 } :=
    ⟨WF_regs_example.memory_u8, WF_regs_example.V_u8, by decide, WF_regs_example.pc_u16,
      WF_regs_example.stack_u16, WF_regs_example.sp_u8, WF_regs_example.delay_u8,
      WF_regs_example.sound_u8, WF_regs_example.keypad_u8⟩
  obtain ⟨⟨s1, e1, a1, _, _, a4⟩, ⟨s2, e2, b1, b2, _, _⟩, _, _⟩ :=
    block_store_load host0 { regs_example with I := 0x300 } 1 (by decide) hw (by decide)
  exact ⟨hw, by decide, ⟨s1, e1, a1 0 (by decide), a1 1 (by decide), a4⟩,
    ⟨s2, e2, b1 0 (by decide), b1 1 (by decide), b2 0xF (by decide)⟩⟩

/-! ## Binary-coded decimal (C14) -/

theorem bcd_FX33_eq (h : Host) (s : State) (X : Nat) (hX : X < 16)
    (hI : s.I + 2 < MEMORY_SIZE) :
    execute h s (mkOpcode 0xF X 3 3) =
      .ok { s with memory := (set (set (set s.memory (s.I + 2) (u8 (s.V X % 10))) (s.I + 1)
        (u8 (s.V X / 10 % 10))) (s.I + 0) (u8 (s.V X / 10 / 10 % 10))) } := by
  rw [execute_mkF h s X 3 3 hX (by decide) (by decide)]
  have e : op_FXNN h s X (3 * 16 + 3) = op_FX33 s X := by simp [op_FXNN]
  have h2 : ¬ s.I + 2 ≥ MEMORY_SIZE := by omega
  have h1 : ¬ s.I + 1 ≥ MEMORY_SIZE := by omega
  have h0 : ¬ s.I + 0 ≥ MEMORY_SIZE := by omega
  rw [e]
  simp only [op_FX33, op_FX33_loop, if_neg h2, if_neg h1, if_neg h0]

theorem bcd_FX33_core (h : Host) (s : State) (X : Nat) (hX : X < 16) (hs : WF s)
    (hI : s.I + 2 < MEMORY_SIZE) :
    ∃ s', execute h s (mkOpcode 0xF X 3 3) = .ok s' ∧
      s'.memory s.I = s.V X / 100 ∧
      s'.memory (s.I + 1) = s.V X / 10 % 10 ∧
      s'.memory (s.I + 2) = s.V X % 10 ∧
      (∀ a, a ≠ s.I → a ≠ s.I + 1 → a ≠ s.I + 2 → s'.memory a = s.memory a) ∧
      s'.V = s.V ∧ s'.I = s.I := by
  have hv := hs.V_u8 X
  refine ⟨_, bcd_FX33_eq h s X hX hI, ?_, ?_, ?_, ?_, rfl, rfl⟩
  · show set _ _ _ s.I = _
    simp only [set_apply, u8, Nat.add_zero, if_true]
    omega
  · show set _ _ _ (s.I + 1) = _
    have n1 : ¬ (s.I + 1 = s.I + 0) := by omega
    rw [set_apply, if_neg n1, set_apply, if_pos rfl]
    unfold u8; omega
  · show set _ _ _ (s.I + 2) = _
    have n1 : ¬ (s.I + 2 = s.I + 0) := by omega
    have n2 : ¬ (s.I + 2 = s.I + 1) := by omega
    rw [set_apply, if_neg n1, set_apply, if_neg n2, set_apply, if_pos rfl]
    unfold u8; omega
  · intro a a0 a1 a2
    have n0 : ¬ (a = s.I + 0) := by omega
    show set _ _ _ a = s.memory a
    rw [set_apply, if_neg n0, set_apply, if_neg a1, set_apply, if_neg a2]

/-- C14: for every well-formed state with I + 2 < 4096, FX33 succeeds and writes the
hundreds digit VX / 100 to memory[I], the tens digit (VX / 10) mod 10 to memory[I + 1]
and the ones digit VX mod 10 to memory[I + 2]; the three digits are at most 9 and
100 * memory[I] + 10 * memory[I + 1] + memory[I + 2] = VX; no other memory byte, no
register and not I is changed; for VX = 123 the bytes written are 1, 2, 3. -/
theorem bcd_FX33 (h : Host) (s : State) (X : Nat) (hX : X < 16) (hs : WF s)
    (hI : s.I + 2 < MEMORY_SIZE) :
    ∃ s', execute h s (mkOpcode 0xF X 3 3) = .ok s' ∧
      s'.memory s.I = s.V X / 100 ∧
      s'.memory (s.I + 1) = s.V X / 10 % 10 ∧
      s'.memory (s.I + 2) = s.V X % 10 ∧
      100 * s'.memory s.I + 10 * s'.memory (s.I + 1) + s'.memory (s.I + 2) = s.V X ∧
      s'.memory s.I ≤ 9 ∧ s'.memory (s.I + 1) ≤ 9 ∧ s'.memory (s.I + 2) ≤ 9 ∧
      (∀ a, a ≠ s.I → a ≠ s.I + 1 → a ≠ s.I + 2 → s'.memory a = s.memory a) ∧
      s'.V = s.V ∧ s'.I = s.I ∧
      (s.V X = 123 →
        s'.memory s.I = 1 ∧ s'.memory (s.I + 1) = 2 ∧ s'.memory (s.I + 2) = 3) := by
  have hv := hs.V_u8 X
  obtain ⟨s', e, m0, m1, m2, mf, mV, mI⟩ := bcd_FX33_core h s X hX hs hI
  refine ⟨s', e, m0, m1, m2, ?_, ?_, ?_, ?_, mf, mV, mI, ?_⟩
  · rw [m0, m1, m2]; omega
  · rw [m0]; omega
  · rw [m1]; omega
  · rw [m2]; omega
  · intro h123
    rw [m0, m1, m2, h123]
    exact ⟨rfl, rfl, rfl⟩

/-- Witness of `bcd_FX33`: V3 = 123 and I = 0x300, the scenario `63 7B`, `F3 33`. -/
theorem bcd_FX33_witness :
    WF (setV { chip8_init with I := 0x300 } 3 123) ∧
    (setV { chip8_init with I := 0x300 } 3 123).I + 2 < MEMORY_SIZE ∧
    (setV { chip8_init with I := 0x300 } 3 123).V 3 = 123 ∧
    ∃ s', execute host0 (setV { chip8_init with I := 0x300 } 3 123) (mkOpcode 0xF 3 3 3) = .ok s' ∧
      s'.memory 0x300 = 1 ∧ s'.memory 0x301 = 2 ∧ s'.memory 0x302 = 3 := by
  have hw : WF (setV { chip8_init with I := 0x300 } 3 123) :=
    WF_setV _ _ _ ⟨WF_init.memory_u8, WF_init.V_u8, by decide, WF_init.pc_u16,
      WF_init.stack_u16, WF_init.sp_u8, WF_init.delay_u8, WF_init.sound_u8, WF_init.keypad_u8⟩
  obtain ⟨s', e, _, _, _, _, _, _, _, _, _, _, h123⟩ :=
    bcd_FX33 host0 (setV { chip8_init with I := 0x300 } 3 123) 3 (by decide) hw (by decide)
  exact ⟨hw, by decide, by decide, s', e, h123 (by decide)⟩

/-! ## Font table and index-from-digit (C15) -/

theorem write_block_loop_memory (start : Nat) : ∀ (data : List Nat) (i : Nat) (s : State),
    start + i + data.length ≤ MEMORY_SIZE →
    ∀ a, (write_block_loop start data i s).memory a =
      if start + i ≤ a ∧ a < start + i + data.length then u8 (data.getD (a - (start + i)) 0)
      else s.memory a := by
  intro data
  induction data with
  | nil =>
    intro i s _ a
    simp only [write_block_loop, List.length_nil]
    rw [if_neg (by omega)]
  | cons b rest ih =>
    intro i s hb a
    simp only [List.length_cons] at hb
    simp only [write_block_loop, List.length_cons]
    rw [write_ok s (start + i) b (by omega), ih (i + 1) _ (by omega) a]
    show (if start + (i + 1) ≤ a ∧ a < start + (i + 1) + rest.length then
        u8 (rest.getD (a - (start + (i + 1))) 0)
      else set s.memory (start + i) (u8 b) a) = _
    rw [set_apply]
    by_cases h1 : a = start + i
    · subst h1
      rw [if_neg (by omega), if_pos rfl, if_pos (by omega), Nat.sub_self]
      rfl
    · rw [if_neg h1]
      by_cases h2 : start + (i + 1) ≤ a ∧ a < start + (i + 1) + rest.length
      · have e : a - (start + i) = (a - (start + (i + 1))) + 1 := by omega
        rw [if_pos h2, if_pos (by omega), e, List.getD_cons_succ]
      · rw [if_neg h2, if_neg (by omega)]

theorem chip8_fontset_u8 : ∀ i, i < 80 → chip8_fontset.getD i 0 < 256 := by decide

/-- C15: on the state left by chip8_init, load_fontset succeeds and places the 80
font bytes at 0x50..0x9F; and for every state that holds the font table there and
every register X, FX29 succeeds and sets I to 0x50 + 5 * (VX mod 16), the address of
the first of the five bytes of the glyph of hex digit VX mod 16; for VX = 5 that is
I = 0x69. -/
theorem font_glyph_FX29 :
    (load_fontset chip8_init).1 = true ∧
    (∀ i, i < 80 → (load_fontset chip8_init).2.memory (0x50 + i) = chip8_fontset.getD i 0) ∧
    (∀ (h : Host) (s : State) (X : Nat), X < 16 →
      (∀ i, i < 80 → s.memory (0x50 + i) = chip8_fontset.getD i 0) →
      ∃ s', execute h s (mkOpcode 0xF X 2 9) = .ok s' ∧
        s'.I = 0x50 + 5 * (s.V X % 16) ∧
        (∀ i, i < 5 → s'.memory (s'.I + i) = chip8_fontset.getD (5 * (s.V X % 16) + i) 0) ∧
        (s.V X = 5 → s'.I = 0x69)) := by
  refine ⟨by decide, ?_, ?_⟩
  · intro i hi
    have e : (load_fontset chip8_init).2 = write_block_loop 0x50 chip8_fontset 0 chip8_init := rfl
    rw [e, write_block_loop_memory 0x50 chip8_fontset 0 chip8_init (by decide)]
    have hl : chip8_fontset.length = 80 := by decide
    rw [if_pos (by omega)]
    have e2 : 0x50 + i - (0x50 + 0) = i := by omega
    rw [e2]
    exact Nat.mod_eq_of_lt (chip8_fontset_u8 i hi)
  · intro h s X hX hfont
    have e : execute h s (mkOpcode 0xF X 2 9) = .ok (op_FX29 s X) := by
      rw [execute_mkF h s X 2 9 hX (by decide) (by decide)]
      simp [op_FXNN]
    have hI : (op_FX29 s X).I = 0x50 + 5 * (s.V X % 16) := by
      have h16 : s.V X % 16 < 16 := Nat.mod_lt _ (by decide)
      simp only [op_FX29, u8, u16, and_0xF, FONTSET_START_ADDRESS]
      generalize s.V X % 16 = d at h16
      have e1 : d % 256 = d := Nat.mod_eq_of_lt (by omega)
      have e2 : (80 + d * 5) % 65536 = 80 + d * 5 := Nat.mod_eq_of_lt (by omega)
      rw [e1, e2]
      omega
    refine ⟨_, e, hI, ?_, ?_⟩
    · intro i hi
      rw [hI]
      have := hfont (5 * (s.V X % 16) + i) (by omega)
      rw [← this]
      show s.memory _ = s.memory _
      congr 1
      omega
    · intro h5
      rw [hI, h5]

/-- Witness of `font_glyph_FX29`: VA = 5 on the state with the font loaded, the
scenario `6A 05`, `FA 29`. -/
theorem font_glyph_FX29_witness :
    (∀ i, i < 80 →
      (setV (load_fontset chip8_init).2 0xA 5).memory (0x50 + i) = chip8_fontset.getD i 0) ∧
    (setV (load_fontset chip8_init).2 0xA 5).V 0xA = 5 ∧
    ∃ s', execute host0 (setV (load_fontset chip8_init).2 0xA 5) (mkOpcode 0xF 0xA 2 9) = .ok s' ∧
      s'.I = 0x69 ∧
      (∀ i, i < 5 → s'.memory (s'.I + i) = chip8_fontset.getD (5 * 5 + i) 0) := by
  obtain ⟨_, hfont, hX⟩ := font_glyph_FX29
  obtain ⟨s', e, _, hg, h69⟩ := hX host0 (setV (load_fontset chip8_init).2 0xA 5) 0xA (by decide)
    hfont
  exact ⟨hfont, by decide, s', e, h69 (by decide), hg⟩

/-! ## The clear-and-jump ROM (C16) -/

theorem clear_and_jump_steps :
    ∃ s0, load_rom chip8_init [0x00, 0xE0, 0x12, 0x00] = some s0 ∧
      (∀ h : Host, decode_and_execute h s0 = .ok { s0 with pc := 0x202 }) ∧
      (∀ h : Host, decode_and_execute h { s0 with pc := 0x202 } = .ok s0) :=
  ⟨_, rfl, fun _ => rfl, fun _ => rfl⟩

/-- C16: the ROM `00 E0 12 00` loaded at 0x200 of the initial state runs for every
number of steps, whatever the host supplies: the run never faults, and after the run
the state is the state after loading with PC = 0x200 (even number of steps) or
PC = 0x202 (odd number of steps), so registers, index, stack, memory and timers are as
after loading and every display cell is clear. -/
theorem clear_and_jump_runs_forever :
    ∃ s0, load_rom chip8_init [0x00, 0xE0, 0x12, 0x00] = some s0 ∧
      (∀ r c, s0.display r c = false) ∧
      ∀ hs : List Host,
        run hs s0 = .ok { s0 with pc := if hs.length % 2 = 0 then 0x200 else 0x202 } := by
  obtain ⟨s0, hload, hA, hB⟩ := clear_and_jump_steps
  have hpc : s0.pc = 0x200 := by
    have e := hload
    simp only [load_rom] at e
    split_ifs at e
    have e := Option.some.inj e
    rw [← e]
    rfl
  have hdisp : ∀ r c, s0.display r c = false := by
    intro r c
    have e := hload
    simp only [load_rom] at e
    split_ifs at e
    have e := Option.some.inj e
    rw [← e]
    rfl
  have hself : ({ s0 with pc := 0x200 } : State) = s0 := by
    rw [← hpc]
  have both : ∀ hs : List Host,
      run hs s0 = .ok { s0 with pc := if hs.length % 2 = 0 then 0x200 else 0x202 } ∧
      run hs { s0 with pc := 0x202 } =
        .ok { s0 with pc := if hs.length % 2 = 0 then 0x202 else 0x200 } := by
    intro hs
    induction hs with
    | nil =>
      refine ⟨?_, rfl⟩
      show Except.ok s0 = Except.ok { s0 with pc := if 0 % 2 = 0 then 0x200 else 0x202 }
      rw [if_pos rfl, hself]
    | cons h hs ih =>
      obtain ⟨i1, i2⟩ := ih
      constructor
      · simp only [run, hA h, List.length_cons]
        rw [i2]
        by_cases hp : hs.length % 2 = 0
        · rw [if_pos hp, if_neg (by omega)]
        · rw [if_neg hp, if_pos (by omega)]
      · simp only [run, hB h, List.length_cons]
        rw [i1]
        by_cases hp : hs.length % 2 = 0
        · rw [if_pos hp, if_neg (by omega)]
        · rw [if_neg hp, if_pos (by omega)]
  exact ⟨s0, hload, hdisp, fun hs => (both hs).1⟩

/-! ## Timers (C17) -/

theorem timer_tick_timers (s : State) (hd : s.delay_timer < 256) (hsnd : s.sound_timer < 256) :
    (timer_tick s).delay_timer = (if s.delay_timer > 0 then s.delay_timer - 1 else 0) ∧
    (timer_tick s).sound_timer = (if s.sound_timer > 0 then s.sound_timer - 1 else 0) ∧
    timer_tick s = { s with delay_timer := (timer_tick s).delay_timer
                            sound_timer := (timer_tick s).sound_timer } := by
  have e1 : u8 (s.delay_timer - 1) = s.delay_timer - 1 := Nat.mod_eq_of_lt (by omega)
  have e2 : u8 (s.sound_timer - 1) = s.sound_timer - 1 := Nat.mod_eq_of_lt (by omega)
  unfold timer_tick
  by_cases h1 : s.delay_timer > 0 <;> by_cases h2 : s.sound_timer > 0
  · simp only [if_pos h1, if_pos h2, e1, e2]
    refine ⟨?_, ?_, ?_⟩ <;> trivial
  · simp only [if_pos h1, if_neg h2, e1]
    refine ⟨?_, ?_, ?_⟩ <;> first | trivial | omega
  · simp only [if_neg h1, if_pos h2, e2]
    refine ⟨?_, ?_, ?_⟩ <;> first | trivial | omega
  · simp only [if_neg h1, if_neg h2]
    refine ⟨?_, ?_, ?_⟩ <;> first | trivial | omega

theorem timer_loop_one_period {F : Type} (ops : FloatOps F) (p zero : F) (fuel : Nat)
    (s : State) (hge : ops.ge p p = true) (hsub : ops.sub p p = zero)
    (hzero : ops.ge zero p = false) (hfuel : 2 ≤ fuel) :
    timer_loop ops p fuel p s = some (zero, timer_tick s) := by
  obtain ⟨n, rfl⟩ : ∃ n, fuel = n + 2 := ⟨fuel - 2, by omega⟩
  simp only [timer_loop, hge, hsub, hzero, if_true, Bool.false_eq_true, if_false]

/-- C17: the float type of the accumulators and its operations are parameters.  When
the timer accumulator holds zero (no leftover) and the frame time equals the timer
period p, with 0 + p = p, p >= p, p - p = 0 and not 0 >= p (all true of a positive
float), then after the CPU loop of that iteration has run any number of steps and
ended in a state s1, the timer loop body runs exactly once: the iteration ends with
the timer accumulator back at zero and with the state `timer_tick s1`, in which delay
and sound are each one less than in s1 when positive and 0 when already 0, and nothing
else differs from s1. -/
theorem timer_ticks_once {F : Type} (ops : FloatOps F) (cpu_period p zero : F)
    (cpu_accumulator cpu_acc : F) (down : Nat → Bool) (hostAt : Nat → Host) (fuel : Nat)
    (s s1 : State)
    (hadd : ops.add zero p = p) (hge : ops.ge p p = true) (hsub : ops.sub p p = zero)
    (hzero : ops.ge zero p = false) (hfuel : 2 ≤ fuel)
    (hcpu : cpu_loop ops cpu_period hostAt fuel 0 (ops.add cpu_accumulator p)
      (keypad_state down s) = some (.ok (cpu_acc, s1)))
    (hd : s1.delay_timer < 256) (hsnd : s1.sound_timer < 256) :
    host_iteration ops cpu_period p p down hostAt fuel cpu_accumulator zero s =
      some (.ok (cpu_acc, zero, timer_tick s1)) ∧
    (timer_tick s1).delay_timer = (if s1.delay_timer > 0 then s1.delay_timer - 1 else 0) ∧
    (timer_tick s1).sound_timer = (if s1.sound_timer > 0 then s1.sound_timer - 1 else 0) ∧
    timer_tick s1 = { s1 with delay_timer := (timer_tick s1).delay_timer
                              sound_timer := (timer_tick s1).sound_timer } := by
  refine ⟨?_, timer_tick_timers s1 hd hsnd⟩
  simp only [host_iteration, hcpu, hadd,
    timer_loop_one_period ops p zero fuel s1 hge hsub hzero hfuel]

/-- Witness of `timer_ticks_once`: time counted in whole units, timer period 50, CPU
period 6, so eight CPU steps (of the program `12 00`, a jump to itself) run in the
iteration; the delay timer goes from 5 to 4 and the sound timer stays at 0. -/
theorem timer_ticks_once_witness :
    cpu_loop natOps 6 (fun _ => host0) 10 0 (natOps.add 0 50)
      (keypad_state (fun _ => false) { with_program chip8_init 0x12 0x00 with delay_timer := 5 }) =
      some (.ok (2, keypad_state (fun _ => false)
        { with_program chip8_init 0x12 0x00 with delay_timer := 5 })) ∧
    host_iteration natOps 6 50 50 (fun _ => false) (fun _ => host0) 10 0 0
      { with_program chip8_init 0x12 0x00 with delay_timer := 5 } =
      some (.ok (2, 0, timer_tick (keypad_state (fun _ => false)
        { with_program chip8_init 0x12 0x00 with delay_timer := 5 }))) ∧
    (timer_tick (keypad_state (fun _ => false)
      { with_program chip8_init 0x12 0x00 with delay_timer := 5 })).delay_timer = 4 ∧
    (timer_tick (keypad_state (fun _ => false)
      { with_program chip8_init 0x12 0x00 with delay_timer := 5 })).sound_timer = 0 := by
  have hcpu : cpu_loop natOps 6 (fun _ => host0) 10 0 (natOps.add 0 50)
      (keypad_state (fun _ => false) { with_program chip8_init 0x12 0x00 with delay_timer := 5 }) =
      some (.ok (2, keypad_state (fun _ => false)
        { with_program chip8_init 0x12 0x00 with delay_timer := 5 })) := rfl
  obtain ⟨h1, h2, h3, _⟩ := timer_ticks_once natOps 6 50 0 0 2 (fun _ => false) (fun _ => host0) 10
    { with_program chip8_init 0x12 0x00 with delay_timer := 5 } _ rfl rfl rfl rfl (by decide)
    hcpu (by decide) (by decide)
  exact ⟨hcpu, h1, h2, h3⟩

/-! ## Unchecked memory accesses (C18) -/

/-- C18, the code at the failing inputs: after AFFF has set I = 0x0FFF, each of the
instructions D012 (reads memory[I + 1]), F033 (writes memory[I + 2]) and F165 (reads
memory[I + 1]) accesses the index 4096 or above, which the model reports as the
out-of-bounds fault; the first step of each program succeeds and leaves I = 0x0FFF. -/
theorem unchecked_memory_access :
    (∃ s0 s1, load_rom chip8_init [0xAF, 0xFF, 0xD0, 0x12] = some s0 ∧
      decode_and_execute host0 s0 = .ok s1 ∧ s1.I = 0x0FFF ∧
      run [host0, host0] s0 = .error .outOfBounds) ∧
    (∃ s0 s1, load_rom chip8_init [0xAF, 0xFF, 0xF0, 0x33] = some s0 ∧
      decode_and_execute host0 s0 = .ok s1 ∧ s1.I = 0x0FFF ∧
      run [host0, host0] s0 = .error .outOfBounds) ∧
    (∃ s0 s1, load_rom chip8_init [0xAF, 0xFF, 0xF1, 0x65] = some s0 ∧
      decode_and_execute host0 s0 = .ok s1 ∧ s1.I = 0x0FFF ∧
      run [host0, host0] s0 = .error .outOfBounds) :=
  ⟨⟨_, _, rfl, rfl, rfl, rfl⟩, ⟨_, _, rfl, rfl, rfl, rfl⟩, ⟨_, _, rfl, rfl, rfl, rfl⟩⟩

/-! ## Shifts (C19) -/

theorem shift_bits (v : Nat) (hv : v < 256) :
    u8 (v &&& 0x01) = v % 2 ∧ u8 (v >>> 1) = v / 2 ∧
    u8 ((v &&& 0x80) >>> 7) = v / 128 ∧ u8 (v <<< 1) = (2 * v) % 256 := by
  have h1 : v &&& 0x01 = v % 2 := Nat.and_pow_two_sub_one_eq_mod v 1
  have h2 : v >>> 1 = v / 2 := by rw [Nat.shiftRight_eq_div_pow]
  have h3 : (v &&& 0x80) >>> 7 = v / 128 := by
    have m := and_shiftLeft_mask v 1 7
    have e : (1 : Nat) <<< 7 = 0x80 := by decide
    have a1 : ∀ x : Nat, x &&& 1 = x % 2 := fun x => Nat.and_pow_two_sub_one_eq_mod x 1
    rw [e] at m
    rw [m, a1, Nat.shiftLeft_eq, Nat.shiftRight_eq_div_pow, Nat.shiftRight_eq_div_pow]
    omega
  have h4 : v <<< 1 = 2 * v := by rw [Nat.shiftLeft_eq]; omega
  rw [h1, h2, h3, h4]
  unfold u8
  refine ⟨?_, ?_, ?_, rfl⟩ <;> omega

/-- C19: for every well-formed state and registers X, Y in 0..15, with s the shift
source (VY when uses_vy is enabled, VX when it is disabled): 8XY6 succeeds and ends
with VF = s mod 2, and for X other than 0xF with VX = s / 2, so s = 2 * VX + VF; 8XYE
succeeds and ends with VF = s / 128, and for X other than 0xF with VX = (2 * s) mod 256,
so 2 * s = 256 * VF + VX. -/
theorem shift_8XY6_8XYE (h : Host) (s : State) (X Y : Nat) (hX : X < 16) (hY : Y < 16)
    (hs : WF s) :
    (s.uses_vy = true → shift_source s X Y = s.V Y) ∧
    (s.uses_vy = false → shift_source s X Y = s.V X) ∧
    (∃ s', execute h s (mkOpcode 8 X Y 6) = .ok s' ∧
      s'.V 0xF = shift_source s X Y % 2 ∧
      (X ≠ 0xF → s'.V X = shift_source s X Y / 2 ∧
        shift_source s X Y = 2 * s'.V X + s'.V 0xF)) ∧
    (∃ s', execute h s (mkOpcode 8 X Y 0xE) = .ok s' ∧
      s'.V 0xF = shift_source s X Y / 128 ∧
      (X ≠ 0xF → s'.V X = (2 * shift_source s X Y) % 256 ∧
        2 * shift_source s X Y = 256 * s'.V 0xF + s'.V X)) := by
  have hsrc : shift_source s X Y < 256 := by
    unfold shift_source
    split_ifs
    · exact hs.V_u8 Y
    · exact hs.V_u8 X
  obtain ⟨b1, b2, b3, b4⟩ := shift_bits (shift_source s X Y) hsrc
  have r6 : op_8XYN s X Y 6 =
      setV (setV s X (u8 (shift_source s X Y >>> 1))) 0xF (u8 (shift_source s X Y &&& 0x01)) := by
    simp [op_8XYN, op_8XY6, shift_source]
  have rE : op_8XYN s X Y 0xE =
      setV (setV s X (u8 (shift_source s X Y <<< 1))) 0xF
        (u8 ((shift_source s X Y &&& 0x80) >>> 7)) := by
    simp [op_8XYN, op_8XYE, shift_source]
  have hm2 : shift_source s X Y % 2 % 256 = shift_source s X Y % 2 := by omega
  have hd2 : shift_source s X Y / 2 % 256 = shift_source s X Y / 2 := by omega
  have hd128 : shift_source s X Y / 128 % 256 = shift_source s X Y / 128 := by omega
  refine ⟨fun hu => by simp [shift_source, hu], fun hu => by simp [shift_source, hu],
    ⟨_, execute_mk8 h s X Y 6 hX hY (by decide), ?_, ?_⟩,
    ⟨_, execute_mk8 h s X Y 0xE hX hY (by decide), ?_, ?_⟩⟩
  · rw [r6, b1, b2]
    simp [setV, u8, hm2]
  · intro hne
    rw [r6, b1, b2]
    have f1 : (setV (setV s X (shift_source s X Y / 2)) 0xF (shift_source s X Y % 2)).V X =
        shift_source s X Y / 2 := by simp [setV, u8, hne, hd2]
    have f2 : (setV (setV s X (shift_source s X Y / 2)) 0xF (shift_source s X Y % 2)).V 0xF =
        shift_source s X Y % 2 := by simp [setV, u8, hm2]
    rw [f1, f2]
    exact ⟨rfl, by omega⟩
  · rw [rE, b3, b4]
    simp [setV, u8, hd128]
  · intro hne
    rw [rE, b3, b4]
    have f1 : (setV (setV s X (2 * shift_source s X Y % 256)) 0xF
        (shift_source s X Y / 128)).V X = 2 * shift_source s X Y % 256 := by
      simp [setV, u8, hne]
    have f2 : (setV (setV s X (2 * shift_source s X Y % 256)) 0xF
        (shift_source s X Y / 128)).V 0xF = shift_source s X Y / 128 := by
      simp [setV, u8, hd128]
    rw [f1, f2]
    exact ⟨rfl, by omega⟩

/-- Witness of `shift_8XY6_8XYE`: V1 = 250 on the example registers (uses_vy is
disabled there, so the source is VX). -/
theorem shift_8XY6_8XYE_witness :
    WF regs_example ∧ regs_example.uses_vy = false ∧ shift_source regs_example 1 0 = 250 ∧
    (∃ s', execute host0 regs_example (mkOpcode 8 1 0 6) = .ok s' ∧
      s'.V 0xF = 250 % 2 ∧ s'.V 1 = 250 / 2) ∧
    (∃ s', execute host0 regs_example (mkOpcode 8 1 0 0xE) = .ok s' ∧
      s'.V 0xF = 250 / 128 ∧ s'.V 1 = (2 * 250) % 256) := by
  obtain ⟨_, hx, ⟨s1, e1, f1, g1⟩, ⟨s2, e2, f2, g2⟩⟩ :=
    shift_8XY6_8XYE host0 regs_example 1 0 (by decide) (by decide) WF_regs_example
  have hsrc : shift_source regs_example 1 0 = 250 := by decide
  rw [hsrc] at f1 g1 f2 g2
  exact ⟨WF_regs_example, rfl, hsrc, ⟨s1, e1, f1, (g1 (by decide)).1⟩,
    ⟨s2, e2, f2, (g2 (by decide)).1⟩⟩

/-! ## Call and return (C20) -/

theorem return_step (h : Host) (s : State) (hpc : s.pc + 1 < MEMORY_SIZE)
    (hw : wordAt s.memory s.pc = 0x00EE) (hsp0 : s.sp ≠ 0) (hsp : s.sp ≤ STACK_SIZE) :
    decode_and_execute h s =
      .ok { s with sp := s.sp - 1, pc := u16 (s.stack (s.sp - 1)) } := by
  rw [decode_and_execute_eq h s hpc, hw]
  have m : (0x00EE : Nat) &&& 0xF000 = 0 := by decide
  have e : execute h { s with pc := s.pc + 2 } 0x00EE = op_00EE { s with pc := s.pc + 2 } := by
    simp [execute, dispatch, m]
  have hu : u8 (s.sp - 1) = s.sp - 1 := by unfold u8; unfold STACK_SIZE at hsp; omega
  have hlt : ¬ (s.sp - 1 ≥ STACK_SIZE) := by omega
  rw [e]
  simp only [op_00EE, stack_pop, if_neg hsp0, hu, if_neg hlt]

/-- C20: for every state with fewer than 16 stacked return addresses whose PC = p
points at a call 2NNN, where the two bytes at NNN are the return instruction 00EE, the
two steps succeed and end with PC = p + 2 and the same stack size; the only thing that
differs besides PC is the stack slot at index sp, above the stacked return addresses:
registers, I, memory, display, timers and the stack slots below sp are unchanged. -/
theorem call_then_return (h1 h2 : Host) (s : State) (NNN : Nat)
    (hsp : s.sp < STACK_SIZE) (hpc : s.pc + 1 < MEMORY_SIZE)
    (hcall : wordAt s.memory s.pc = 0x2000 + NNN) (hN : NNN + 1 < MEMORY_SIZE)
    (hret : wordAt s.memory NNN = 0x00EE) :
    ∃ s', run [h1, h2] s = .ok s' ∧
      s' = { s with pc := s.pc + 2, stack := set s.stack s.sp (s.pc + 2) } ∧
      s'.pc = s.pc + 2 ∧ s'.sp = s.sp ∧ (∀ i, i < s.sp → s'.stack i = s.stack i) ∧
      s'.V = s.V ∧ s'.I = s.I ∧ s'.memory = s.memory ∧ s'.display = s.display ∧
      s'.delay_timer = s.delay_timer ∧ s'.sound_timer = s.sound_timer := by
  have hN' : NNN < 4096 := by unfold MEMORY_SIZE at hN; omega
  have st1 := call_step h1 s NNN hpc hN' hcall
  rw [if_neg (by omega)] at st1
  have hu8 : u8 (s.sp + 1) = s.sp + 1 := by unfold u8; unfold STACK_SIZE at hsp; omega
  have hu16 : u16 NNN = NNN := by unfold u16; omega
  have hu16p : u16 (s.pc + 2) = s.pc + 2 := by unfold u16; unfold MEMORY_SIZE at hpc; omega
  rw [hu8, hu16, hu16p] at st1
  have st2 := return_step h2
    { s with stack := set s.stack s.sp (s.pc + 2), sp := s.sp + 1, pc := NNN } hN hret
    (by show s.sp + 1 ≠ 0; omega) (by show s.sp + 1 ≤ STACK_SIZE; omega)
  have hret_addr : u16 (set s.stack s.sp (s.pc + 2) (s.sp + 1 - 1)) = s.pc + 2 := by
    rw [Nat.add_sub_cancel, set_apply, if_pos rfl, hu16p]
  have hrun : run [h1, h2] s =
      .ok { s with pc := s.pc + 2, stack := set s.stack s.sp (s.pc + 2) } := by
    simp only [run, st1, st2]
    congr 1
    show State.mk _ _ _ _ _ _ _ _ _ _ _ _ _ = State.mk _ _ _ _ _ _ _ _ _ _ _ _ _
    congr 1
  refine ⟨_, hrun, rfl, rfl, rfl, ?_, rfl, rfl, rfl, rfl, rfl, rfl⟩
  intro i hi
  show set s.stack s.sp (s.pc + 2) i = s.stack i
  rw [set_apply, if_neg (by omega)]

/-- Witness of `call_then_return`: a call at 0x200 to 0x300, where a return stands,
on the initial state. -/
theorem call_then_return_witness :
    ({ chip8_init with memory := fun a =>
        if a = 0x200 then 0x23 else if a = 0x301 then 0xEE else 0 } : State).sp < STACK_SIZE ∧
    ∃ s', run [host0, host0]
        { chip8_init with memory := fun a =>
            if a = 0x200 then 0x23 else if a = 0x301 then 0xEE else 0 } = .ok s' ∧
      s'.pc = 0x200 + 2 ∧ s'.sp = 0 := by
  obtain ⟨s', e, _, hpc, hsp, _⟩ := call_then_return host0 host0
    { chip8_init with memory := fun a =>
        if a = 0x200 then 0x23 else if a = 0x301 then 0xEE else 0 } 0x300
    (by decide) (by decide) (by decide) (by decide) (by decide)
  exact ⟨by decide, s', e, hpc, hsp⟩

end CHIP8
